import Mathlib

/-!
# Verification of the circuit-analysis engines of `virtual-electrical-designer`

Shallow embedding, over exact arithmetic (`ℚ` for the real-valued DC and
transient paths, `ℝ`/`ℂ` for the AC phasor path), of:

* `src/backend/simulation/circuit_solver.py` (`CircuitSolver`), namespace `CS`;
* `src/backend/services/dc_analyzer.py` (`DCAnalyzer`), namespace `DCA`;
* `src/backend/services/ac_analyzer.py` (`ACAnalyzer`), namespace `ACA`;
* `src/backend/services/transient_analyzer.py` (`TransientAnalyzer`), namespace `TA`;
* `src/backend/simulation/circuit_solver_microservices.py`
  (`CircuitSolverMicroservices.add_node`), namespace `Micro`.

NumPy's `scipy.linalg.solve` / `np.linalg.solve` are modelled by an exact
linear solver `solveLin` that inverts via the adjugate when the determinant is
nonzero and reports failure (the model of `LinAlgError`) when the matrix is
singular.  Python dictionaries are modelled as insertion-ordered association
lists, matching CPython's dict-order guarantee that the code relies on.
-/

/-- Executable model of Python's `str.lower()` (ASCII lowercasing, which is all
the source compares against). -/
def strLower (s : String) : String := String.mk (s.data.map Char.toLower)

/-! ## Exact linear solver (model of `scipy.linalg.solve` / `np.linalg.solve`)

`scipy.linalg.solve(Y, I)` returns the unique solution of `Y·x = I` and raises
`LinAlgError` when `Y` is singular; both call sites catch that exception.  The
model returns `none` exactly on a singular matrix. -/

def solveLin {K : Type} [Field K] [DecidableEq K] {n : ℕ}
    (A : Matrix (Fin n) (Fin n) K) (b : Fin n → K) : Option (Fin n → K) :=
  if A.det = 0 then none
  else some (((A.det)⁻¹ • A.adjugate).mulVec b)

/-! ## Matrix/vector assembly helpers

The Python code mutates NumPy arrays entry by entry; the model represents the
arrays as total functions `ℕ → ℕ → ℚ` / `ℕ → ℚ` (zero-initialised, as
`np.zeros`) and each assignment as a pointwise functional update. -/

/-- `Y[i, j] = v` (NumPy element assignment). -/
def setY {α : Type} (Y : ℕ → ℕ → α) (i j : ℕ) (v : α) : ℕ → ℕ → α :=
  fun a b => if a = i ∧ b = j then v else Y a b

/-- `Y[i, j] += v`. -/
def addY {α : Type} [Add α] (Y : ℕ → ℕ → α) (i j : ℕ) (v : α) : ℕ → ℕ → α :=
  setY Y i j (Y i j + v)

/-- `I[i] = v`. -/
def setI {α : Type} (I : ℕ → α) (i : ℕ) (v : α) : ℕ → α :=
  fun a => if a = i then v else I a

/-- `I[i] += v`. -/
def addI {α : Type} [Add α] (I : ℕ → α) (i : ℕ) (v : α) : ℕ → α :=
  setI I i (I i + v)

namespace CS

/-- Translation of the component dictionaries appended by
`CircuitSolver.add_*` (`circuit_solver.py`): a tagged variant carrying the
same fields, with node indices already resolved through `add_node`. -/
inductive Comp
  | resistor (name : String) (node1 node2 : ℕ) (value : ℚ)
  | capacitor (name : String) (node1 node2 : ℕ) (value : ℚ)
  | inductor (name : String) (node1 node2 : ℕ) (value : ℚ)
  | voltage_source (name : String) (node_pos node_neg : ℕ) (value : ℚ)
  | current_source (name : String) (node1 node2 : ℕ) (value : ℚ)
  deriving DecidableEq

/-- State of a `CircuitSolver` instance (`__init__`). -/
structure State where
  nodes : List (String × ℕ)
  node_counter : ℕ
  ground_node : Option String
  components : List Comp
  deriving DecidableEq

/-- `CircuitSolver()`. -/
def initState : State :=
  { nodes := [], node_counter := 0, ground_node := none, components := [] }

/-- The ground test of `CircuitSolver.add_node`:
`node_name.lower() == "gnd" or node_name.lower() == "ground"`. -/
def isGroundName (node_name : String) : Bool :=
  strLower node_name == "gnd" || strLower node_name == "ground"

/-- `CircuitSolver.add_node`: ground aliases `"gnd"`/`"ground"`
(case-insensitively) map to index 0; any other new name gets the next counter
value; an already-registered name keeps its index. -/
def add_node (s : State) (node_name : String) : State × ℕ :=
  match s.nodes.lookup node_name with
  | some i => (s, i)
  | none =>
    if isGroundName node_name then
      ({ s with ground_node := some node_name,
                nodes := s.nodes ++ [(node_name, 0)] }, 0)
    else
      ({ s with node_counter := s.node_counter + 1,
                nodes := s.nodes ++ [(node_name, s.node_counter + 1)] },
       s.node_counter + 1)

/-- `CircuitSolver.add_resistor`.  The `ValueError` raised on a non-positive
value is modelled as a `some message` first component; the raise happens
before any mutation, so the state returned alongside an error is the input
state. -/
def add_resistor (s : State) (name node1 node2 : String) (resistance : ℚ) :
    Option String × State :=
  if resistance ≤ 0 then
    (some ("Resistor " ++ name ++ " must have positive resistance"), s)
  else
    let r1 := add_node s node1
    let r2 := add_node r1.1 node2
    (none, { r2.1 with components :=
      r2.1.components ++ [Comp.resistor name r1.2 r2.2 resistance] })

/-- `CircuitSolver.add_capacitor`. -/
def add_capacitor (s : State) (name node1 node2 : String) (capacitance : ℚ) :
    Option String × State :=
  if capacitance ≤ 0 then
    (some ("Capacitor " ++ name ++ " must have positive capacitance"), s)
  else
    let r1 := add_node s node1
    let r2 := add_node r1.1 node2
    (none, { r2.1 with components :=
      r2.1.components ++ [Comp.capacitor name r1.2 r2.2 capacitance] })

/-- `CircuitSolver.add_inductor`. -/
def add_inductor (s : State) (name node1 node2 : String) (inductance : ℚ) :
    Option String × State :=
  if inductance ≤ 0 then
    (some ("Inductor " ++ name ++ " must have positive inductance"), s)
  else
    let r1 := add_node s node1
    let r2 := add_node r1.1 node2
    (none, { r2.1 with components :=
      r2.1.components ++ [Comp.inductor name r1.2 r2.2 inductance] })

/-- `CircuitSolver.add_voltage_source` (no validation in the source). -/
def add_voltage_source (s : State) (name node_pos node_neg : String)
    (voltage : ℚ) : State :=
  let r1 := add_node s node_pos
  let r2 := add_node r1.1 node_neg
  { r2.1 with components :=
      r2.1.components ++ [Comp.voltage_source name r1.2 r2.2 voltage] }

/-- `CircuitSolver.add_current_source` (no validation in the source). -/
def add_current_source (s : State) (name node1 node2 : String)
    (current : ℚ) : State :=
  let r1 := add_node s node1
  let r2 := add_node r1.1 node2
  { r2.1 with components :=
      r2.1.components ++ [Comp.current_source name r1.2 r2.2 current] }

/-! ### `CircuitSolver.dc_analysis` -/

/-- Result dictionary of `CircuitSolver.dc_analysis`: the success dictionary
carries `node_voltages` (the raw solution array restricted to node
unknowns), `node_names` (`{name: V[idx]}` in dict insertion order) and
`component_currents`; the failure dictionary carries only `status='failed'`
and an `error` message. -/
inductive DCResult
  | success (node_voltages : List ℚ) (node_names : List (String × ℚ))
      (component_currents : List (String × ℚ))
  | failed (error : String)
  deriving DecidableEq

/-- The `status` field of the result dictionary. -/
def DCResult.status : DCResult → String
  | .success _ _ _ => "success"
  | .failed _ => "failed"

/-- `num_nodes = max(self.nodes.values()) + 1` (callers guard `nodes ≠ ∅`). -/
def numNodes (s : State) : ℕ :=
  (s.nodes.map Prod.snd).foldl max 0 + 1

/-- Number of voltage sources in the component list. -/
def numVSources (s : State) : ℕ :=
  (s.components.filter fun c =>
    match c with | Comp.voltage_source _ _ _ _ => true | _ => false).length

/-- First pass of `dc_analysis`: resistor conductance stamps and current
source injections. -/
def stampPass1 (YI : (ℕ → ℕ → ℚ) × (ℕ → ℚ)) (c : Comp) :
    (ℕ → ℕ → ℚ) × (ℕ → ℚ) :=
  match c with
  | Comp.resistor _ n1 n2 R =>
    let G := 1 / R
    let Y := YI.1
    let Y := addY Y n1 n1 G
    let Y := addY Y n2 n2 G
    let Y := addY Y n1 n2 (-G)
    let Y := addY Y n2 n1 (-G)
    (Y, YI.2)
  | Comp.current_source _ n1 n2 current =>
    let I := YI.2
    let I := addI I n1 (-current)
    let I := addI I n2 current
    (YI.1, I)
  | _ => YI

/-- Second pass of `dc_analysis`: each voltage source is approximated by a
large conductance `G_source = 1e6` injected at its non-ground terminals
(`circuit_solver.py` lines 176–194) — not by an auxiliary MNA row. -/
def stampVSource (YI : (ℕ → ℕ → ℚ) × (ℕ → ℚ)) (c : Comp) :
    (ℕ → ℕ → ℚ) × (ℕ → ℚ) :=
  match c with
  | Comp.voltage_source _ n_pos n_neg voltage =>
    let G_source : ℚ := 1000000
    let Y := YI.1
    let I := YI.2
    let Y := if n_pos ≠ 0 then addY Y n_pos n_pos G_source else Y
    let I := if n_pos ≠ 0 then addI I n_pos (G_source * voltage) else I
    let Y := if n_neg ≠ 0 then addY Y n_neg n_neg G_source else Y
    let I := if n_neg ≠ 0 then addI I n_neg (-(G_source * voltage)) else I
    (Y, I)
  | _ => YI

/-- Both stamping passes, starting from `np.zeros`. -/
def assembleRaw (s : State) : (ℕ → ℕ → ℚ) × (ℕ → ℚ) :=
  let YI := s.components.foldl stampPass1 (fun _ _ => 0, fun _ => 0)
  (s.components.filter fun c =>
    match c with | Comp.voltage_source _ _ _ _ => true | _ => false).foldl
    stampVSource YI

/-- The assembled matrix after the ground row is forced to the identity
equation `Y[0,:]=0; Y[0,0]=1` (done just before solving). -/
def assembledY (s : State) : ℕ → ℕ → ℚ :=
  fun i j => if i = 0 then (if j = 0 then 1 else 0) else (assembleRaw s).1 i j

/-- The assembled right-hand side after forcing `I[0] = 0`. -/
def assembledI (s : State) : ℕ → ℚ :=
  fun i => if i = 0 then 0 else (assembleRaw s).2 i

/-- The `num_nodes × num_nodes` system matrix handed to `scipy.linalg.solve`. -/
def sysMatrix (s : State) : Matrix (Fin (numNodes s)) (Fin (numNodes s)) ℚ :=
  Matrix.of fun i j => assembledY s i.val j.val

/-- The right-hand-side vector handed to `scipy.linalg.solve`. -/
def sysVec (s : State) : Fin (numNodes s) → ℚ :=
  fun i => assembledI s i.val

/-- `CircuitSolver._calculate_currents`: resistor current by Ohm's law on the
node-voltage difference; capacitors (DC open circuit) and inductors (DC short
circuit) report 0; sources get no entry. -/
def calculate_currents (comps : List Comp) (V : List ℚ) : List (String × ℚ) :=
  comps.filterMap fun c =>
    match c with
    | Comp.resistor name n1 n2 R => some (name, (V.getD n1 0 - V.getD n2 0) / R)
    | Comp.capacitor name _ _ _ => some (name, 0)
    | Comp.inductor name _ _ _ => some (name, 0)
    | _ => none

/-- `CircuitSolver.dc_analysis`.  The `try/except` wrapper means a singular
matrix is reported as a failure dictionary, never an escaping exception; the
model is a total function with the same two outcomes. -/
def dc_analysis (s : State) : DCResult :=
  if s.nodes = [] then .failed "No nodes in circuit"
  else
    match solveLin (sysMatrix s) (sysVec s) with
    | none => .failed "Singular matrix - check circuit topology"
    | some x =>
      let V : List ℚ := (List.finRange (numNodes s)).map x
      .success V (s.nodes.map fun p => (p.1, V.getD p.2 0))
        (calculate_currents s.components V)

/-! ### `CircuitSolver.transient_analysis` -/

/-- `np.arange(0, duration, time_step)`: the `k*step` grid points below
`duration` (empty for a non-positive step, where NumPy would not produce a
usable grid either). -/
def timePoints (duration time_step : ℚ) : List ℚ :=
  if time_step ≤ 0 then []
  else (List.range ⌈duration / time_step⌉₊).map fun k => (k : ℚ) * time_step

/-- Result of `CircuitSolver.transient_analysis`: each code path returns a
dictionary of a different shape, modelled by one constructor per path.  A
failure dictionary (`{'status':'failed','error':…}`) has the same shape
whether it was produced by the transient code or propagated verbatim from
`dc_analysis`, hence a single `failed` constructor. -/
inductive TResult
  | failed (error : String)
  | rc (time : List ℚ) (voltage_out current power : List ℝ) (tau : ℚ)
  | rl (time : List ℚ) (current voltage_L power : List ℝ) (tau : ℚ)
  | resistive (time : List ℚ) (node_voltages : List (String × List ℚ))
      (component_currents : List (String × List ℚ))

def isCapacitor : Comp → Bool
  | Comp.capacitor _ _ _ _ => true
  | _ => false

def isInductor : Comp → Bool
  | Comp.inductor _ _ _ _ => true
  | _ => false

def isResistor : Comp → Bool
  | Comp.resistor _ _ _ _ => true
  | _ => false

def isVoltageSource : Comp → Bool
  | Comp.voltage_source _ _ _ _ => true
  | _ => false

def compValue : Comp → ℚ
  | Comp.resistor _ _ _ v => v
  | Comp.capacitor _ _ _ v => v
  | Comp.inductor _ _ _ v => v
  | Comp.voltage_source _ _ _ v => v
  | Comp.current_source _ _ _ v => v

/-- `CircuitSolver._transient_resistive`: run `dc_analysis`; propagate a
non-success result unchanged; otherwise repeat the DC solution across the
time grid, pairing `self.nodes.keys()` with the voltage array by `zip` (i.e.
by dict insertion order, not by node index). -/
def transient_resistive (s : State) (time_points : List ℚ) : TResult :=
  match dc_analysis s with
  | .failed e => .failed e
  | .success V _ currents =>
    .resistive time_points
      (((s.nodes.map Prod.fst).zip V).map fun p =>
        (p.1, List.replicate time_points.length p.2))
      (currents.map fun p => (p.1, List.replicate time_points.length p.2))

/-- `CircuitSolver._transient_rc`: closed-form RC charging curve using the
first resistor, first capacitor and first voltage source (the exponential
forces the trajectories into `ℝ`). -/
noncomputable def transient_rc (s : State) (time_points : List ℚ) : TResult :=
  match s.components.filter isResistor,
        s.components.filter isVoltageSource,
        s.components.filter isCapacitor with
  | r :: _, v :: _, c :: _ =>
    let R : ℝ := (compValue r : ℚ)
    let C : ℝ := (compValue c : ℚ)
    let V_in : ℝ := (compValue v : ℚ)
    let tau : ℝ := R * C
    let V_out : List ℝ :=
      time_points.map fun t => V_in * (1 - Real.exp (-((t : ℝ) / tau)))
    let I : List ℝ := V_out.map fun vo => (V_in - vo) / R
    let P : List ℝ := I.map fun i => i ^ 2 * R
    .rc time_points V_out I P (compValue r * compValue c)
  | _, _, _ => .failed "Need R, C, and voltage source for RC analysis"

/-- `CircuitSolver._transient_rl`: closed-form RL current-rise curve. -/
noncomputable def transient_rl (s : State) (time_points : List ℚ) : TResult :=
  match s.components.filter isResistor,
        s.components.filter isVoltageSource,
        s.components.filter isInductor with
  | r :: _, v :: _, l :: _ =>
    let R : ℝ := (compValue r : ℚ)
    let L : ℝ := (compValue l : ℚ)
    let V_in : ℝ := (compValue v : ℚ)
    let I : List ℝ :=
      time_points.map fun t => V_in / R * (1 - Real.exp (-((t : ℝ) * R / L)))
    let V_L : List ℝ := I.map fun i => V_in - i * R
    let P : List ℝ := I.map fun i => i ^ 2 * R
    .rl time_points I V_L P (compValue l / compValue r)
  | _, _, _ => .failed "Need R, L, and voltage source for RL analysis"

/-- `CircuitSolver.transient_analysis`: dispatch on the presence of reactive
elements; RLC circuits are rejected. -/
noncomputable def transient_analysis (s : State) (duration time_step : ℚ) :
    TResult :=
  let time_points := timePoints duration time_step
  let capacitors := s.components.filter isCapacitor
  let inductors := s.components.filter isInductor
  if capacitors = [] ∧ inductors = [] then transient_resistive s time_points
  else if capacitors ≠ [] ∧ inductors = [] then transient_rc s time_points
  else if inductors ≠ [] ∧ capacitors = [] then transient_rl s time_points
  else .failed "RLC transient analysis not yet implemented"

end CS

namespace DCA

/-- Resistor dictionary appended by `DCAnalyzer.add_resistor` (the only
`components` entry type the service creates). -/
structure Resistor where
  name : String
  node1 : ℕ
  node2 : ℕ
  value : ℚ
  deriving DecidableEq

/-- Voltage-source dictionary of `DCAnalyzer.add_voltage_source`. -/
structure VSource where
  name : String
  node_pos : ℕ
  node_neg : ℕ
  voltage : ℚ
  deriving DecidableEq

/-- Current-source dictionary of `DCAnalyzer.add_current_source`. -/
structure ISource where
  name : String
  node1 : ℕ
  node2 : ℕ
  current : ℚ
  deriving DecidableEq

/-- State of a `DCAnalyzer` instance. -/
structure State where
  node_count : ℕ
  components : List Resistor
  voltage_sources : List VSource
  current_sources : List ISource
  ground_node : ℕ
  deriving DecidableEq

/-- `DCAnalyzer()`. -/
def initState : State :=
  { node_count := 0, components := [], voltage_sources := [],
    current_sources := [], ground_node := 0 }

/-- `DCAnalyzer.add_resistor`; raises (modelled as `some message`) before any
mutation when the value is non-positive. -/
def add_resistor (s : State) (name : String) (node1 node2 : ℕ) (value : ℚ) :
    Option String × State :=
  if value ≤ 0 then
    (some ("Resistor " ++ name ++ ": value must be positive"), s)
  else
    (none, { s with components :=
      s.components ++ [⟨name, node1, node2, value⟩] })

/-- `DCAnalyzer.add_voltage_source` (no validation). -/
def add_voltage_source (s : State) (name : String) (node_pos node_neg : ℕ)
    (voltage : ℚ) : State :=
  { s with voltage_sources :=
      s.voltage_sources ++ [⟨name, node_pos, node_neg, voltage⟩] }

/-- `DCAnalyzer.add_current_source` (no validation). -/
def add_current_source (s : State) (name : String) (node1 node2 : ℕ)
    (current : ℚ) : State :=
  { s with current_sources :=
      s.current_sources ++ [⟨name, node1, node2, current⟩] }

/-- `DCAnalyzer._detect_node_count`: `max({0} ∪ all indices) + 1`. -/
def detect_node_count (s : State) : ℕ :=
  ((s.components.foldl (fun a (c : Resistor) => max a (max c.node1 c.node2)) 0).max
    ((s.voltage_sources.foldl
        (fun a (c : VSource) => max a (max c.node_pos c.node_neg)) 0).max
      (s.current_sources.foldl
        (fun a (c : ISource) => max a (max c.node1 c.node2)) 0))) + 1

/-- `DCAnalyzer.clear`: empties the component lists and resets `node_count`
(the never-written `ground_node` stays). -/
def clear (s : State) : State :=
  { s with components := [], voltage_sources := [], current_sources := [],
           node_count := 0 }

/-- Resistor stamping pass of `DCAnalyzer.solve`. -/
def stampResistor (Y : ℕ → ℕ → ℚ) (c : Resistor) : ℕ → ℕ → ℚ :=
  let G := 1 / c.value
  let Y := addY Y c.node1 c.node1 G
  let Y := addY Y c.node2 c.node2 G
  let Y := addY Y c.node1 c.node2 (-G)
  addY Y c.node2 c.node1 (-G)

/-- Current-source pass of `DCAnalyzer.solve`. -/
def stampISource (I : ℕ → ℚ) (c : ISource) : ℕ → ℚ :=
  addI (addI I c.node1 (-c.current)) c.node2 c.current

/-- Voltage-source pass of `DCAnalyzer.solve` (`for i, src in
enumerate(...)`): each source `i` writes its KVL constraint row at
`eq_idx = num_nodes + i` and the transpose coupling column — a true
augmented-row MNA treatment, with `=` assignments. -/
def stampVSources (num_nodes : ℕ) (YI : (ℕ → ℕ → ℚ) × (ℕ → ℚ))
    (srcs : List VSource) (i : ℕ) : (ℕ → ℕ → ℚ) × (ℕ → ℚ) :=
  match srcs with
  | [] => YI
  | src :: rest =>
    let eq_idx := num_nodes + i
    let Y := YI.1
    let Y := setY Y eq_idx src.node_pos 1
    let Y := setY Y eq_idx src.node_neg (-1)
    let I := setI YI.2 eq_idx src.voltage
    let Y := setY Y src.node_pos eq_idx 1
    let Y := setY Y src.node_neg eq_idx (-1)
    stampVSources num_nodes (Y, I) rest (i + 1)

/-- The full assembly of `DCAnalyzer.solve` for a given `num_nodes`.  Note:
no ground-row forcing takes place anywhere in the service. -/
def assemble (s : State) (num_nodes : ℕ) : (ℕ → ℕ → ℚ) × (ℕ → ℚ) :=
  let Y := s.components.foldl stampResistor (fun _ _ => 0)
  let I := s.current_sources.foldl stampISource (fun _ => 0)
  stampVSources num_nodes (Y, I) s.voltage_sources 0

/-- `num_vars = num_nodes + len(self.voltage_sources)`: the dimension of the
assembled MNA system. -/
def numVars (s : State) (num_nodes : ℕ) : ℕ :=
  num_nodes + s.voltage_sources.length

/-- The `num_vars × num_vars` matrix handed to `scipy.linalg.solve`. -/
def sysMatrix (s : State) (num_nodes : ℕ) :
    Matrix (Fin (numVars s num_nodes)) (Fin (numVars s num_nodes)) ℚ :=
  Matrix.of fun i j => (assemble s num_nodes).1 i.val j.val

/-- The right-hand side handed to `scipy.linalg.solve`. -/
def sysVec (s : State) (num_nodes : ℕ) : Fin (numVars s num_nodes) → ℚ :=
  fun i => (assemble s num_nodes).2 i.val

/-- Result dictionary of `DCAnalyzer.solve`.  On failure the status string is
`"error"` (not `"failed"`) and the data maps are empty — modelled by the
`err` constructor carrying only the message. -/
inductive Result
  | ok (node_voltages : List (ℕ × ℚ)) (currents : List (String × ℚ))
      (power : List (String × ℚ)) (source_currents : List (String × ℚ))
  | err (message : String)
  deriving DecidableEq

/-- The `status` field of a `DCAnalyzer.solve` result dictionary. -/
def Result.status : Result → String
  | .ok _ _ _ _ => "success"
  | .err _ => "error"

/-- `DCAnalyzer.solve` (with `num_nodes = None` meaning auto-detection).
The inner `try/except` around `scipy.linalg.solve` turns a singular matrix
into the `"error"` dictionary; the solution array `X` is read back through
in-range indices, modelled as `getD _ 0` on the solution list. -/
def solve (s : State) (num_nodes : Option ℕ) : Result :=
  let nn := num_nodes.getD (detect_node_count s)
  match solveLin (sysMatrix s nn) (sysVec s nn) with
  | none => .err "Circuit matrix singular - check for floating nodes"
  | some X =>
    let XL : List ℚ := (List.finRange (numVars s nn)).map X
    let node_voltages := (List.range nn).map fun i => (i, XL.getD i 0)
    let source_currents := s.voltage_sources.enum.map fun p =>
      (p.2.name, XL.getD (nn + p.1) 0)
    let currents :=
      (s.components.map fun c =>
        (c.name, (XL.getD c.node1 0 - XL.getD c.node2 0) / c.value))
      ++ (s.current_sources.map fun c => (c.name, c.current))
      ++ source_currents
    let power :=
      (s.components.map fun c =>
        let Icomp := (XL.getD c.node1 0 - XL.getD c.node2 0) / c.value
        (c.name, Icomp * Icomp * c.value))
      ++ (s.current_sources.map fun c =>
        (c.name, (XL.getD c.node1 0 - XL.getD c.node2 0) * c.current))
      ++ (s.voltage_sources.enum.map fun p =>
        (p.2.name, p.2.voltage * XL.getD (nn + p.1) 0))
    .ok node_voltages currents power source_currents

end DCA

/-- `np.linalg.solve` over the complex field (the equality test on the
determinant is classical, as `ℂ` has no computable equality). -/
noncomputable def solveLinC {n : ℕ} (A : Matrix (Fin n) (Fin n) ℂ)
    (b : Fin n → ℂ) : Option (Fin n → ℂ) :=
  @solveLin ℂ _ (Classical.decEq ℂ) n A b

namespace ACA

/-- Component dictionaries appended by `ACAnalyzer.add_resistor` /
`add_capacitor` / `add_inductor` — none of which validates its value. -/
inductive Comp
  | resistor (name : String) (node1 node2 : ℕ) (value : ℝ)
  | capacitor (name : String) (node1 node2 : ℕ) (value : ℝ)
  | inductor (name : String) (node1 node2 : ℕ) (value : ℝ)

def Comp.name : Comp → String
  | .resistor n _ _ _ => n
  | .capacitor n _ _ _ => n
  | .inductor n _ _ _ => n

def Comp.node1 : Comp → ℕ
  | .resistor _ a _ _ => a
  | .capacitor _ a _ _ => a
  | .inductor _ a _ _ => a

def Comp.node2 : Comp → ℕ
  | .resistor _ _ b _ => b
  | .capacitor _ _ b _ => b
  | .inductor _ _ b _ => b

/-- AC voltage-source dictionary; `phase` is stored in radians
(`np.radians(phase)` at insertion). -/
structure VSource where
  name : String
  node_pos : ℕ
  node_neg : ℕ
  magnitude : ℝ
  phase : ℝ

/-- State of an `ACAnalyzer` instance. -/
structure State where
  components : List Comp
  voltage_sources : List VSource
  ground_node : ℕ

/-- `ACAnalyzer()`. -/
def initState : State :=
  { components := [], voltage_sources := [], ground_node := 0 }

def add_resistor (s : State) (name : String) (node1 node2 : ℕ) (value : ℝ) :
    State :=
  { s with components := s.components ++ [Comp.resistor name node1 node2 value] }

def add_capacitor (s : State) (name : String) (node1 node2 : ℕ)
    (capacitance : ℝ) : State :=
  { s with components :=
      s.components ++ [Comp.capacitor name node1 node2 capacitance] }

def add_inductor (s : State) (name : String) (node1 node2 : ℕ)
    (inductance : ℝ) : State :=
  { s with components :=
      s.components ++ [Comp.inductor name node1 node2 inductance] }

/-- `ACAnalyzer.add_voltage_source` converts the phase from degrees to
radians on insertion. -/
noncomputable def add_voltage_source (s : State) (name : String)
    (node_pos node_neg : ℕ) (magnitude : ℝ) (phase : ℝ) : State :=
  { s with voltage_sources := s.voltage_sources ++
      [⟨name, node_pos, node_neg, magnitude, phase * Real.pi / 180⟩] }

/-- `ACAnalyzer.clear` — only the two lists are reset. -/
def clear (s : State) : State :=
  { s with components := [], voltage_sources := [] }

/-- `ω = 2πf` as computed at the top of each frequency iteration. -/
noncomputable def omega (frequency : ℝ) : ℝ := 2 * Real.pi * frequency

/-- `ACAnalyzer._get_impedance`, also the inline `Z` of the stamping loop in
`ACAnalyzer.solve` (the two sites use identical formulas): `R`,
`1/(jωC)`, `jωL`. -/
noncomputable def get_impedance (c : Comp) (omega : ℝ) : ℂ :=
  match c with
  | .resistor _ _ _ value => (value : ℂ)
  | .capacitor _ _ _ value => 1 / (Complex.I * (omega : ℂ) * (value : ℂ))
  | .inductor _ _ _ value => Complex.I * (omega : ℂ) * (value : ℂ)

/-- `abs(Z)` (NumPy `np.abs` / complex magnitude). -/
noncomputable def magnitude (z : ℂ) : ℝ := Complex.abs z

/-- `np.degrees(cmath.phase(Z))`. -/
noncomputable def phaseDeg (z : ℂ) : ℝ := Complex.arg z * 180 / Real.pi

/-- `ACAnalyzer._detect_node_count`. -/
def detect_node_count (s : State) : ℕ :=
  ((s.components.foldl (fun a (c : Comp) => max a (max c.node1 c.node2)) 0).max
    (s.voltage_sources.foldl
      (fun a (c : VSource) => max a (max c.node_pos c.node_neg)) 0)) + 1

/-- Admittance stamp of one component at one frequency (`Y_comp = 1/Z`). -/
noncomputable def stampComp (om : ℝ) (Y : ℕ → ℕ → ℂ) (c : Comp) : ℕ → ℕ → ℂ :=
  let Y_comp := 1 / get_impedance c om
  let Y := addY Y c.node1 c.node1 Y_comp
  let Y := addY Y c.node2 c.node2 Y_comp
  let Y := addY Y c.node1 c.node2 (-Y_comp)
  addY Y c.node2 c.node1 (-Y_comp)

/-- Source injection of `ACAnalyzer.solve`: the phasor divided by the
near-unit `1 + 1e-12` series factor — the "very small source impedance"
approximation, not an MNA constraint row. -/
noncomputable def stampSource (I : ℕ → ℂ) (src : VSource) : ℕ → ℂ :=
  let V_source : ℂ := (src.magnitude : ℂ) * Complex.exp (Complex.I * (src.phase : ℂ))
  let I := addI I src.node_pos (-(V_source / (1 + 1/1000000000000)))
  addI I src.node_neg (V_source / (1 + 1/1000000000000))

/-- Per-node voltage entry of the response dictionary:
(magnitude, phase, real, imag). -/
noncomputable def voltEntry (z : ℂ) : ℝ × ℝ × ℝ × ℝ :=
  (magnitude z, phaseDeg z, z.re, z.im)

/-- One frequency point of the `response` dictionary. -/
structure FreqResponse where
  node_voltages : List (ℕ × (ℝ × ℝ × ℝ × ℝ))
  component_currents : List (String × (ℝ × ℝ × ℝ × ℝ))

/-- Result dictionary of `ACAnalyzer.solve`.  The no-source early return is
`{'status':'error','message':…,'frequencies':[],'response':{}}` (with no
`impedances` key, modelled as the empty list). -/
structure Result where
  status : String
  message : Option String
  frequencies : List ℝ
  response : List (ℝ × FreqResponse)
  impedances : List (ℝ × List (String × (ℝ × ℝ)))

/-- The per-frequency solve of `ACAnalyzer.solve`: assemble the complex
admittance system, inject sources, and solve; `none` models the
`LinAlgError → continue` path that skips the frequency point. -/
noncomputable def solveFreq (s : State) (nn : ℕ) (frequency : ℝ) :
    Option FreqResponse :=
  let om := omega frequency
  let Yf := s.components.foldl (stampComp om) (fun _ _ => 0)
  let If := s.voltage_sources.foldl stampSource (fun _ => 0)
  let A : Matrix (Fin nn) (Fin nn) ℂ := Matrix.of fun i j => Yf i.val j.val
  let b : Fin nn → ℂ := fun i => If i.val
  match solveLinC A b with
  | none => none
  | some V =>
    let VL : List ℂ := (List.finRange nn).map V
    some
      { node_voltages := (List.range nn).map fun i => (i, voltEntry (VL.getD i 0))
        component_currents := s.components.map fun c =>
          (c.name, voltEntry
            ((VL.getD c.node1 0 - VL.getD c.node2 0) / get_impedance c om)) }

/-- The per-frequency impedance report (`results['impedances'][f]`), present
exactly when the component loop ran over at least one component. -/
noncomputable def impedanceEntries (s : State) (frequency : ℝ) :
    List (String × (ℝ × ℝ)) :=
  s.components.map fun c =>
    let Z := get_impedance c (omega frequency)
    (c.name, (magnitude Z, phaseDeg Z))

/-- `ACAnalyzer.solve`: the guard on an empty voltage-source list returns the
error dictionary before any frequency is visited; otherwise every frequency
is processed independently and singular points are skipped. -/
noncomputable def solve (s : State) (frequencies : List ℝ)
    (num_nodes : Option ℕ) : Result :=
  if s.voltage_sources.isEmpty then
    { status := "error", message := some "No AC voltage sources defined",
      frequencies := [], response := [], impedances := [] }
  else
    let nn := num_nodes.getD (detect_node_count s)
    { status := "success", message := none, frequencies := frequencies,
      response := frequencies.filterMap fun f =>
        (solveFreq s nn f).map fun r => (f, r),
      impedances := frequencies.filterMap fun f =>
        if s.components.isEmpty then none else some (f, impedanceEntries s f) }

end ACA

namespace TA

/-- Component dictionaries of `TransientAnalyzer.add_resistor` /
`add_capacitor` / `add_inductor` (no value validation in this service). -/
inductive Comp
  | resistor (name : String) (node1 node2 : ℕ) (value : ℝ)
  | capacitor (name : String) (node1 node2 : ℕ) (value : ℝ)
  | inductor (name : String) (node1 node2 : ℕ) (value : ℝ)

/-- `TransientAnalyzer.add_voltage_source` stores a time-varying waveform
function `t ↦ V(t)`. -/
structure Source where
  name : String
  node_pos : ℕ
  node_neg : ℕ
  func : ℝ → ℝ

/-- Python dict assignment `d[k] = v` on an insertion-ordered assoc list. -/
def updateAssoc {β : Type} (l : List (String × β)) (k : String) (v : β) :
    List (String × β) :=
  if l.any (fun p => p.1 == k) then
    l.map fun p => if p.1 == k then (k, v) else p
  else l ++ [(k, v)]

/-- State of a `TransientAnalyzer` instance. -/
structure State where
  components : List Comp
  sources : List Source
  initial_conditions : List (String × ℝ)

def initState : State :=
  { components := [], sources := [], initial_conditions := [] }

def add_resistor (s : State) (name : String) (node1 node2 : ℕ) (value : ℝ) :
    State :=
  { s with components := s.components ++ [Comp.resistor name node1 node2 value] }

def add_capacitor (s : State) (name : String) (node1 node2 : ℕ)
    (capacitance : ℝ) (initial_voltage : ℝ) : State :=
  { s with components := s.components ++ [Comp.capacitor name node1 node2 capacitance],
           initial_conditions :=
             updateAssoc s.initial_conditions name initial_voltage }

def add_inductor (s : State) (name : String) (node1 node2 : ℕ)
    (inductance : ℝ) (initial_current : ℝ) : State :=
  { s with components := s.components ++ [Comp.inductor name node1 node2 inductance],
           initial_conditions :=
             updateAssoc s.initial_conditions name initial_current }

def add_voltage_source (s : State) (name : String) (node_pos node_neg : ℕ)
    (voltage_func : ℝ → ℝ) : State :=
  { s with sources := s.sources ++ [⟨name, node_pos, node_neg, voltage_func⟩] }

/-- `TransientAnalyzer.add_pulse_source`: a step from `v_initial` to
`v_pulse` at `t_rise`, wrapped through `add_voltage_source`. -/
noncomputable def add_pulse_source (s : State) (name : String)
    (node_pos node_neg : ℕ) (v_initial v_pulse t_rise : ℝ) : State :=
  add_voltage_source s name node_pos node_neg fun t =>
    if t < t_rise then v_initial else v_pulse

/-- `TransientAnalyzer.add_sinusoidal_source`. -/
noncomputable def add_sinusoidal_source (s : State) (name : String)
    (node_pos node_neg : ℕ) (amplitude frequency phase : ℝ) : State :=
  add_voltage_source s name node_pos node_neg fun t =>
    amplitude * Real.sin (2 * Real.pi * frequency * t + phase)

/-- `TransientAnalyzer._calculate_component_current` — translated verbatim
from the source, whose body is the stub `return 0.0`. -/
def calculate_component_current (_t : ℝ) (_y : List ℝ) (_c : Comp) : ℝ := 0

/-- `TransientAnalyzer._calculate_component_voltage` — translated verbatim
from the source, whose body is the stub `return 0.0`. -/
def calculate_component_voltage (_t : ℝ) (_y : List ℝ) (_c : Comp) : ℝ := 0

/-- Number of state variables (one per capacitor or inductor). -/
def reactiveCount (comps : List Comp) : ℕ :=
  (comps.filter fun c =>
    match c with
    | Comp.capacitor _ _ _ _ => true
    | Comp.inductor _ _ _ _ => true
    | _ => false).length

/-- `system_ode` — the ODE right-hand side built inside
`TransientAnalyzer.solve`: for each capacitor `dV/dt = I_cap/C`, for each
inductor `dI/dt = V_ind/L`, with the branch quantities taken from the
`_calculate_component_*` helpers. -/
noncomputable def system_ode (s : State) (t : ℝ) (y : List ℝ) : List ℝ :=
  s.components.filterMap fun c =>
    match c with
    | Comp.capacitor _ _ _ C => some (calculate_component_current t y c / C)
    | Comp.inductor _ _ _ L => some (calculate_component_voltage t y c / L)
    | _ => none

/-- `TransientAnalyzer.clear`. -/
def clear (_s : State) : State :=
  { components := [], sources := [], initial_conditions := [] }

end TA

namespace Micro

/-- Node-registry portion of a `CircuitSolverMicroservices` instance (the
only fields `add_node` reads or writes). -/
structure State where
  nodes : List (String × ℕ)
  node_counter : ℕ
  deriving DecidableEq

def initState : State := { nodes := [], node_counter := 0 }

/-- The ground test of `CircuitSolverMicroservices.add_node`:
`node_name.lower() in ["gnd", "ground", "0"]`. -/
def isGroundName (node_name : String) : Bool :=
  strLower node_name == "gnd" || strLower node_name == "ground" ||
    strLower node_name == "0"

/-- `CircuitSolverMicroservices.add_node`: the ground aliases here are
`"gnd"`, `"ground"` and `"0"` (case-insensitively). -/
def add_node (s : State) (node_name : String) : State × ℕ :=
  match s.nodes.lookup node_name with
  | some i => (s, i)
  | none =>
    if isGroundName node_name then
      ({ s with nodes := s.nodes ++ [(node_name, 0)] }, 0)
    else
      ({ nodes := s.nodes ++ [(node_name, s.node_counter + 1)],
         node_counter := s.node_counter + 1 }, s.node_counter + 1)

/-- A sequence of `add_node` calls on one fresh adapter instance. -/
def runAdds (names : List String) : State :=
  names.foldl (fun s n => (add_node s n).1) initState

end Micro

namespace CS

/-- `np.logspace(np.log10(a), np.log10(b), n)`: `n` points whose exponents
interpolate linearly between `log10 a` and `log10 b`. -/
noncomputable def logspace (freq_start freq_end : ℝ) (num_points : ℕ) :
    List ℝ :=
  (List.range num_points).map fun i =>
    (10 : ℝ) ^ (Real.logb 10 freq_start +
      (i : ℝ) * (Real.logb 10 freq_end - Real.logb 10 freq_start) /
        ((num_points : ℝ) - 1))

/-- Result dictionary of `CircuitSolver.ac_analysis`: the success dictionary
carries the frequency grid and, per component, parallel magnitude/phase
arrays; the failure dictionary only the error message. -/
inductive ACResult
  | success (frequencies : List ℝ)
      (impedance : List (String × (List ℝ × List ℝ)))
  | failed (error : String)

/-- Per-component impedance arrays of `CircuitSolver.ac_analysis` (resistor:
constant `R` and zero phase; capacitor/inductor: `|Z|` and
`np.angle(Z)·180/π` at each frequency). -/
noncomputable def acImpedanceArrays (frequencies : List ℝ) (c : Comp) :
    Option (String × (List ℝ × List ℝ)) :=
  match c with
  | Comp.resistor name _ _ R =>
    some (name, (frequencies.map fun _ => (R : ℝ),
                 frequencies.map fun _ => (0 : ℝ)))
  | Comp.capacitor name _ _ C =>
    some (name,
      (frequencies.map fun f =>
        ACA.magnitude (1 / (Complex.I * (ACA.omega f : ℂ) * ((C : ℚ) : ℂ))),
       frequencies.map fun f =>
        ACA.phaseDeg (1 / (Complex.I * (ACA.omega f : ℂ) * ((C : ℚ) : ℂ)))))
  | Comp.inductor name _ _ L =>
    some (name,
      (frequencies.map fun f =>
        ACA.magnitude (Complex.I * (ACA.omega f : ℂ) * ((L : ℚ) : ℂ)),
       frequencies.map fun f =>
        ACA.phaseDeg (Complex.I * (ACA.omega f : ℂ) * ((L : ℚ) : ℂ))))
  | _ => none

/-- `CircuitSolver.ac_analysis`: computes the log-spaced grid, rejects a
sourceless circuit, and otherwise reports per-component impedance arrays
(the `transfer_function` dict is created but never filled in the source). -/
noncomputable def ac_analysis (s : State) (freq_start freq_end : ℝ)
    (num_points : ℕ) : ACResult :=
  let frequencies := logspace freq_start freq_end num_points
  if (s.components.filter isVoltageSource).isEmpty then
    .failed "No voltage source for AC analysis"
  else
    .success frequencies (s.components.filterMap (acImpedanceArrays frequencies))

end CS

/-! ## Caller operation traces

For the lifecycle/`clear` claims the public mutators of each analyzer are
reified as an operation type, so that "every engine instance" can be read as
"every state reachable from a fresh instance by mutator calls". -/

namespace DCA

/-- One public `DCAnalyzer` call that can touch instance state (a failed
`add_resistor` leaves the state unchanged, like the Python raise). -/
inductive Op
  | addR (name : String) (node1 node2 : ℕ) (value : ℚ)
  | addV (name : String) (node_pos node_neg : ℕ) (voltage : ℚ)
  | addI (name : String) (node1 node2 : ℕ) (current : ℚ)
  | solveOp (num_nodes : Option ℕ)

/-- Effect of one call on the instance state (`solve` stores the resolved
node count into `self.node_count`). -/
def runOp (s : State) : Op → State
  | .addR n a b v => (add_resistor s n a b v).2
  | .addV n a b v => add_voltage_source s n a b v
  | .addI n a b v => add_current_source s n a b v
  | .solveOp nn => { s with node_count := nn.getD (detect_node_count s) }

def run (s : State) (ops : List Op) : State := ops.foldl runOp s

end DCA

namespace ACA

/-- One public `ACAnalyzer` call that can touch instance state (`solve` only
reads). -/
inductive Op
  | addR (name : String) (node1 node2 : ℕ) (value : ℝ)
  | addC (name : String) (node1 node2 : ℕ) (value : ℝ)
  | addL (name : String) (node1 node2 : ℕ) (value : ℝ)
  | addV (name : String) (node_pos node_neg : ℕ) (magnitude phase : ℝ)

noncomputable def runOp (s : State) : Op → State
  | .addR n a b v => add_resistor s n a b v
  | .addC n a b v => add_capacitor s n a b v
  | .addL n a b v => add_inductor s n a b v
  | .addV n a b m p => add_voltage_source s n a b m p

noncomputable def run (s : State) (ops : List Op) : State := ops.foldl runOp s

end ACA

/-! ## Concrete example circuits used by witnesses and counterexamples -/

namespace CS

/-- `R1` between `a` and ground plus a 1 mA current source driving `a`,
registered so that `a` is inserted before `gnd` (node `a` gets index 1 while
sitting first in dict order). -/
def exCur : State :=
  add_current_source (add_resistor initState "R1" "a" "gnd" 1000).2
    "I1" "gnd" "a" (1/1000)

/-- A single resistor between two non-ground names: index `0` is never
touched by any component, and rows 1 and 2 of the grounded system are equal
up to sign — a singular, floating topology. -/
def exFloat : State :=
  (add_resistor initState "R1" "a" "b" 1000).2

/-- Voltage divider registered ground-first, so dict order equals index
order. -/
def exAligned : State :=
  (add_resistor initState "R1" "gnd" "a" 1000).2

/-- One voltage source plus one resistor: used to exhibit the
large-conductance DC treatment of `CircuitSolver`. -/
def exVR : State :=
  add_voltage_source (add_resistor initState "R1" "vin" "gnd" 1000).2
    "V1" "vin" "gnd" 5

/-- A sequence of `add_node` calls on one fresh solver instance. -/
def runAdds (names : List String) : State :=
  names.foldl (fun s n => (add_node s n).1) initState

end CS

namespace DCA

/-- One resistor between nodes 0 and 1 (the simplest service circuit). -/
def exR : State :=
  (add_resistor initState "R1" 0 1 1000).2

/-- A voltage source whose both terminals are node 0. -/
def exDegenerate : State :=
  add_voltage_source initState "V1" 0 0 5

/-- One resistor and one voltage source, nodes 0 and 1 (`num_nodes = 2`). -/
def exRV : State :=
  add_voltage_source (add_resistor initState "R1" 0 1 1000).2 "V1" 1 0 5

end DCA

namespace TA

/-- RC circuit with a 5 V step source: resistor 1 kΩ, capacitor 1 µF. -/
noncomputable def exRC : State :=
  add_pulse_source
    (add_capacitor (add_resistor initState "R1" 1 2 1000) "C1" 2 0
      (1/1000000) 0)
    "V1" 1 0 0 5 0

end TA

namespace ACA

/-- A resistor-only state with no voltage source (for the AC guard). -/
def exNoSource : State :=
  add_resistor initState "R1" 0 1 1000

end ACA

/-! # Theorems -/

/-! ## Generic lemmas about the helpers -/

theorem setY_same {α : Type} (Y : ℕ → ℕ → α) (i j : ℕ) (v : α) :
    setY Y i j v i j = v := by
  simp [setY]

theorem setY_other {α : Type} (Y : ℕ → ℕ → α) {i j a b : ℕ} (v : α)
    (h : a ≠ i ∨ b ≠ j) : setY Y i j v a b = Y a b := by
  unfold setY
  rcases h with h | h <;> simp [h]

theorem setI_same {α : Type} (I : ℕ → α) (i : ℕ) (v : α) : setI I i v i = v := by
  simp [setI]

theorem setI_other {α : Type} (I : ℕ → α) {i a : ℕ} (v : α) (h : a ≠ i) :
    setI I i v a = I a := by
  simp [setI, h]

theorem solveLin_eq_none_iff {K : Type} [Field K] [DecidableEq K] {n : ℕ}
    (A : Matrix (Fin n) (Fin n) K) (b : Fin n → K) :
    solveLin A b = none ↔ A.det = 0 := by
  unfold solveLin
  split <;> simp_all

/-- A vector returned by `solveLin` really solves the system. -/
theorem solveLin_sound {K : Type} [Field K] [DecidableEq K] {n : ℕ}
    {A : Matrix (Fin n) (Fin n) K} {b x : Fin n → K}
    (h : solveLin A b = some x) : A.mulVec x = b := by
  unfold solveLin at h
  split at h
  · exact absurd h (by simp)
  · next hdet =>
    have hx : x = ((A.det)⁻¹ • A.adjugate).mulVec b := by
      injection h with h'
      exact h'.symm
    subst hx
    rw [Matrix.mulVec_mulVec, Matrix.mul_smul, Matrix.mul_adjugate,
      smul_smul, inv_mul_cancel₀ hdet, one_smul, Matrix.one_mulVec]

/-- If `A` is nonsingular and `x` solves the system, then `solveLin` returns
exactly `x` (uniqueness of the solution). -/
theorem solveLin_eq_some {K : Type} [Field K] [DecidableEq K] {n : ℕ}
    {A : Matrix (Fin n) (Fin n) K} {b x : Fin n → K}
    (hdet : A.det ≠ 0) (hx : A.mulVec x = b) : solveLin A b = some x := by
  unfold solveLin
  rw [if_neg hdet]
  congr 1
  rw [← hx, Matrix.mulVec_mulVec, Matrix.smul_mul, Matrix.adjugate_mul,
    smul_smul, inv_mul_cancel₀ hdet, one_smul, Matrix.one_mulVec]

/-! ## C4 — the transient ODE right-hand side -/

/-- Helper: the right-hand side built from the stubbed helpers is a list of
zeros of the state dimension, whatever the circuit, time and state. -/
theorem TA.system_ode_eq_zeros (s : TA.State) (t : ℝ) (y : List ℝ) :
    TA.system_ode s t y = List.replicate (TA.reactiveCount s.components) 0 := by
  unfold TA.system_ode TA.reactiveCount
  induction s.components with
  | nil => rfl
  | cons c rest ih =>
    simp only [TA.calculate_component_current, TA.calculate_component_voltage,
      zero_div] at ih ⊢
    cases c <;> simp [List.filterMap_cons, List.replicate_succ, ih]

/-- C4: the claim demands that the transient right-hand side compute
`dV/dt = I_C/C` and `dI/dt = V_L/L` from a companion-network solve and in
particular not be constant zero for a driven RC circuit.  The code's
`_calculate_component_current`/`_calculate_component_voltage` are stubbed to
`return 0.0`, so `system_ode` is identically the zero vector; on the 5 V
step / 1 kΩ / 1 µF circuit at `t = 1 ms`, state `V_C = 0`, the code returns
`[0]` where the claimed contract gives `I_C/C = (5/1000)/10⁻⁶ = 5000`. -/
theorem claim_C4_transient_rhs_stubbed :
    (∀ (s : TA.State) (t : ℝ) (y : List ℝ),
      TA.system_ode s t y = List.replicate (TA.reactiveCount s.components) 0) ∧
    TA.system_ode TA.exRC (1/1000) [0] = [0] ∧
    TA.system_ode TA.exRC (1/1000) [0] ≠ [5000] := by
  refine ⟨TA.system_ode_eq_zeros, ?_, ?_⟩ <;>
    simp [TA.exRC, TA.add_pulse_source, TA.add_voltage_source,
      TA.add_capacitor, TA.add_resistor, TA.initState, TA.system_ode,
      TA.calculate_component_current, TA.calculate_component_voltage]

/-! ## C7 — insertion-time validation of R/L/C values -/

/-- C7: `add_resistor`, `add_capacitor` and `add_inductor` raise exactly when
the value is `≤ 0`, and a raising call leaves the engine state untouched
(shown for all three `CircuitSolver` adders and for the validating
`DCAnalyzer.add_resistor`). -/
theorem claim_C7_insertion_validation (s : CS.State) (ds : DCA.State)
    (name node1 node2 : String) (a b : ℕ) (v : ℚ) :
    (((CS.add_resistor s name node1 node2 v).1.isSome = true) ↔ v ≤ 0) ∧
    (v ≤ 0 → (CS.add_resistor s name node1 node2 v).2 = s) ∧
    (((CS.add_capacitor s name node1 node2 v).1.isSome = true) ↔ v ≤ 0) ∧
    (v ≤ 0 → (CS.add_capacitor s name node1 node2 v).2 = s) ∧
    (((CS.add_inductor s name node1 node2 v).1.isSome = true) ↔ v ≤ 0) ∧
    (v ≤ 0 → (CS.add_inductor s name node1 node2 v).2 = s) ∧
    (((DCA.add_resistor ds name a b v).1.isSome = true) ↔ v ≤ 0) ∧
    (v ≤ 0 → (DCA.add_resistor ds name a b v).2 = ds) := by
  by_cases h : v ≤ 0 <;>
    simp [CS.add_resistor, CS.add_capacitor, CS.add_inductor,
      DCA.add_resistor, h]

/-- Witness for C7 at `v = -1` on fresh engines. -/
theorem claim_C7_insertion_validation_witness :
    (CS.add_resistor CS.initState "R1" "a" "b" (-1)).1.isSome = true ∧
    (CS.add_resistor CS.initState "R1" "a" "b" (-1)).2 = CS.initState ∧
    (CS.add_capacitor CS.initState "R1" "a" "b" (-1)).1.isSome = true ∧
    (CS.add_inductor CS.initState "R1" "a" "b" (-1)).2 = CS.initState ∧
    (DCA.add_resistor DCA.initState "R1" 0 1 (-1)).1.isSome = true ∧
    (DCA.add_resistor DCA.initState "R1" 0 1 (-1)).2 = DCA.initState := by
  obtain ⟨h1, h2, h3, h4, h5, h6, h7, h8⟩ :=
    claim_C7_insertion_validation CS.initState DCA.initState "R1" "a" "b" 0 1 (-1)
  have hv : (-1 : ℚ) ≤ 0 := by norm_num
  exact ⟨h1.mpr hv, h2 hv, h3.mpr hv, h6 hv, h7.mpr hv, h8 hv⟩

/-! ## C9 — `clear()` restores the initial state -/

/-- No `DCAnalyzer` mutator ever writes `ground_node`. -/
theorem DCA.run_ground_node_dc (ops : List DCA.Op) (s : DCA.State) :
    (DCA.run s ops).ground_node = s.ground_node := by
  induction ops generalizing s with
  | nil => rfl
  | cons op rest ih =>
    rw [DCA.run, List.foldl_cons, ← DCA.run]
    rw [ih]
    cases op with
    | addR n a b v =>
      by_cases h : v ≤ 0 <;> simp [DCA.runOp, DCA.add_resistor, h]
    | addV n a b v => rfl
    | addI n a b v => rfl
    | solveOp nn => rfl

/-- `clear` after any sequence of calls on a fresh `DCAnalyzer` gives back
exactly the fresh state. -/
theorem DCA.clear_run_dc (ops : List DCA.Op) :
    DCA.clear (DCA.run DCA.initState ops) = DCA.initState := by
  have hg := DCA.run_ground_node_dc ops DCA.initState
  rcases hE : DCA.run DCA.initState ops with ⟨nc, cs, vs, is, g⟩
  rw [hE] at hg
  simp [DCA.initState] at hg
  simp [DCA.clear, DCA.initState, hg]

/-- No `ACAnalyzer` mutator ever writes `ground_node`. -/
theorem ACA.run_ground_node_ac (ops : List ACA.Op) (s : ACA.State) :
    (ACA.run s ops).ground_node = s.ground_node := by
  induction ops generalizing s with
  | nil => rfl
  | cons op rest ih =>
    rw [ACA.run, List.foldl_cons, ← ACA.run]
    rw [ih]
    cases op <;> rfl

/-- `clear` after any sequence of calls on a fresh `ACAnalyzer` gives back
exactly the fresh state. -/
theorem ACA.clear_run_ac (ops : List ACA.Op) :
    ACA.clear (ACA.run ACA.initState ops) = ACA.initState := by
  have hg := ACA.run_ground_node_ac ops ACA.initState
  rcases hE : ACA.run ACA.initState ops with ⟨cs, vs, g⟩
  rw [hE] at hg
  simp [ACA.initState] at hg
  simp [ACA.clear, ACA.initState, hg]

/-- C9: for both services, `clear()` on any reachable engine state restores
the initial empty state, so replaying any insertion sequence and solving
yields exactly the result of the same run on a freshly constructed engine. -/
theorem claim_C9_clear_roundtrip (ops ops' : List DCA.Op) (nn : Option ℕ)
    (aops aops' : List ACA.Op) (freqs : List ℝ) (nnac : Option ℕ) :
    DCA.run (DCA.clear (DCA.run DCA.initState ops)) ops'
      = DCA.run DCA.initState ops' ∧
    DCA.solve (DCA.run (DCA.clear (DCA.run DCA.initState ops)) ops') nn
      = DCA.solve (DCA.run DCA.initState ops') nn ∧
    ACA.run (ACA.clear (ACA.run ACA.initState aops)) aops'
      = ACA.run ACA.initState aops' ∧
    ACA.solve (ACA.run (ACA.clear (ACA.run ACA.initState aops)) aops') freqs nnac
      = ACA.solve (ACA.run ACA.initState aops') freqs nnac := by
  rw [DCA.clear_run_dc, ACA.clear_run_ac]
  exact ⟨rfl, rfl, rfl, rfl⟩

/-! ## C10 — AC analysis with no voltage source -/

/-- C10: with an empty voltage-source list, `ACAnalyzer.solve` returns the
error dictionary — status `"error"`, a message, empty frequency list and
empty response, with no per-frequency work — and `CircuitSolver.ac_analysis`
likewise returns its failure dictionary.  (Both models are total functions:
the guard path raises nothing.) -/
theorem claim_C10_ac_no_source_guard (s : ACA.State) (freqs : List ℝ)
    (nn : Option ℕ) (cs : CS.State) (f0 f1 : ℝ) (np : ℕ) :
    (s.voltage_sources = [] →
      ACA.solve s freqs nn =
        { status := "error", message := some "No AC voltage sources defined",
          frequencies := [], response := [], impedances := [] }) ∧
    ((cs.components.filter CS.isVoltageSource) = [] →
      CS.ac_analysis cs f0 f1 np =
        .failed "No voltage source for AC analysis") := by
  constructor
  · intro h
    rw [ACA.solve, if_pos (by simp [h])]
  · intro h
    rw [CS.ac_analysis]
    simp only [h, List.isEmpty_nil, if_true]

/-- Witness for C10: a fresh `ACAnalyzer` holding one resistor and no source,
and a fresh `CircuitSolver` with one resistor. -/
theorem claim_C10_ac_no_source_guard_witness :
    ACA.solve ACA.exNoSource [1, 10] none =
      { status := "error", message := some "No AC voltage sources defined",
        frequencies := [], response := [], impedances := [] } ∧
    CS.ac_analysis CS.exFloat 1 1000000 10 =
      .failed "No voltage source for AC analysis" := by
  have h := claim_C10_ac_no_source_guard ACA.exNoSource [1, 10] none
    CS.exFloat 1 1000000 10
  refine ⟨h.1 ?_, h.2 ?_⟩
  · rfl
  · rfl

/-! ## C5 — AC impedance magnitudes and phases -/

/-- `2πf > 0` for `f > 0`. -/
theorem ACA.omega_pos {f : ℝ} (hf : 0 < f) : 0 < ACA.omega f := by
  unfold ACA.omega
  positivity

/-- The capacitor impedance `1/(jωC)` rewritten into polar-friendly form. -/
theorem ACA.capZ_eq (nm : String) (a b : ℕ) (om C : ℝ) :
    ACA.get_impedance (ACA.Comp.capacitor nm a b C) om
      = (((om * C)⁻¹ : ℝ) : ℂ) * (-Complex.I) := by
  have h0 : ACA.get_impedance (ACA.Comp.capacitor nm a b C) om
      = 1 / (Complex.I * (om : ℂ) * (C : ℂ)) := rfl
  rw [h0, one_div]
  have h : Complex.I * (om : ℂ) * (C : ℂ) = ((om * C : ℝ) : ℂ) * Complex.I := by
    push_cast
    ring
  rw [h, mul_inv, Complex.inv_I, Complex.ofReal_inv]

/-- The inductor impedance `jωL` rewritten into polar-friendly form. -/
theorem ACA.indZ_eq (nm : String) (a b : ℕ) (om L : ℝ) :
    ACA.get_impedance (ACA.Comp.inductor nm a b L) om
      = (((om * L) : ℝ) : ℂ) * Complex.I := by
  have h0 : ACA.get_impedance (ACA.Comp.inductor nm a b L) om
      = Complex.I * (om : ℂ) * (L : ℂ) := rfl
  rw [h0]
  push_cast
  ring

/-- C5: at every frequency `f > 0` the reported impedance of a resistor has
magnitude `R` and phase `0°`; of a capacitor, magnitude `1/(2πfC)` (strictly
decreasing in `f`) and phase `-90°`; of an inductor, magnitude `2πfL`
(strictly increasing in `f`) and phase `+90°`. -/
theorem claim_C5_ac_impedance_formulas (nm : String) (a b : ℕ)
    (f f' R C L : ℝ) (hf : 0 < f) (hff : f < f') (hR : 0 < R) (hC : 0 < C)
    (hL : 0 < L) :
    ACA.magnitude (ACA.get_impedance (ACA.Comp.resistor nm a b R) (ACA.omega f))
      = R ∧
    ACA.phaseDeg (ACA.get_impedance (ACA.Comp.resistor nm a b R) (ACA.omega f))
      = 0 ∧
    ACA.magnitude (ACA.get_impedance (ACA.Comp.capacitor nm a b C) (ACA.omega f))
      = 1 / (2 * Real.pi * f * C) ∧
    ACA.phaseDeg (ACA.get_impedance (ACA.Comp.capacitor nm a b C) (ACA.omega f))
      = -90 ∧
    ACA.magnitude (ACA.get_impedance (ACA.Comp.capacitor nm a b C) (ACA.omega f'))
      < ACA.magnitude (ACA.get_impedance (ACA.Comp.capacitor nm a b C) (ACA.omega f)) ∧
    ACA.magnitude (ACA.get_impedance (ACA.Comp.inductor nm a b L) (ACA.omega f))
      = 2 * Real.pi * f * L ∧
    ACA.phaseDeg (ACA.get_impedance (ACA.Comp.inductor nm a b L) (ACA.omega f))
      = 90 ∧
    ACA.magnitude (ACA.get_impedance (ACA.Comp.inductor nm a b L) (ACA.omega f))
      < ACA.magnitude (ACA.get_impedance (ACA.Comp.inductor nm a b L) (ACA.omega f')) := by
  have hf' : 0 < f' := lt_trans hf hff
  have hprod : ∀ g x : ℝ, 0 < g → 0 < x → 0 < ACA.omega g * x := by
    intro g x hg hx
    exact mul_pos (ACA.omega_pos hg) hx
  have homega : ∀ g : ℝ, ACA.omega g = 2 * Real.pi * g := fun g => rfl
  have hcap : ∀ g : ℝ, 0 < g →
      ACA.magnitude (ACA.get_impedance (ACA.Comp.capacitor nm a b C) (ACA.omega g))
        = 1 / (2 * Real.pi * g * C) := by
    intro g hg
    unfold ACA.magnitude
    rw [ACA.capZ_eq]
    rw [map_mul, Complex.abs_ofReal,
      abs_of_pos (inv_pos.mpr (hprod g C hg hC))]
    have hnI : Complex.abs (-Complex.I) = 1 := by
      rw [map_neg_eq_map, Complex.abs_I]
    rw [hnI, mul_one, homega, one_div]
  have hind : ∀ g : ℝ, 0 < g →
      ACA.magnitude (ACA.get_impedance (ACA.Comp.inductor nm a b L) (ACA.omega g))
        = 2 * Real.pi * g * L := by
    intro g hg
    unfold ACA.magnitude
    rw [ACA.indZ_eq, map_mul, Complex.abs_ofReal, Complex.abs_I, mul_one,
      abs_of_pos (hprod g L hg hL), homega]
  refine ⟨?_, ?_, hcap f hf, ?_, ?_, hind f hf, ?_, ?_⟩
  · unfold ACA.magnitude ACA.get_impedance
    rw [Complex.abs_ofReal, abs_of_pos hR]
  · unfold ACA.phaseDeg ACA.get_impedance
    rw [Complex.arg_ofReal_of_nonneg hR.le, zero_mul, zero_div]
  · unfold ACA.phaseDeg
    rw [ACA.capZ_eq, Complex.arg_real_mul _ (inv_pos.mpr (hprod f C hf hC)),
      Complex.arg_neg_I]
    have hpi := Real.pi_ne_zero
    field_simp
    ring
  · rw [hcap f hf, hcap f' hf']
    have h1 : (0:ℝ) < 2 * Real.pi * f * C :=
      mul_pos (mul_pos (mul_pos two_pos Real.pi_pos) hf) hC
    apply one_div_lt_one_div_of_lt h1
    have hpi := Real.pi_pos
    nlinarith
  · unfold ACA.phaseDeg
    rw [ACA.indZ_eq, Complex.arg_real_mul _ (hprod f L hf hL), Complex.arg_I]
    have hpi := Real.pi_ne_zero
    field_simp
    ring
  · rw [hind f hf, hind f' hf']
    exact mul_lt_mul_of_pos_right
      (mul_lt_mul_of_pos_left hff (mul_pos two_pos Real.pi_pos)) hL

/-- Witness for C5 at `f = 1 Hz`, `f' = 2 Hz`, `R = C = L = 1`. -/
theorem claim_C5_ac_impedance_formulas_witness :
    ACA.magnitude (ACA.get_impedance (ACA.Comp.resistor "Z" 0 1 1) (ACA.omega 1))
      = 1 ∧
    ACA.phaseDeg (ACA.get_impedance (ACA.Comp.capacitor "Z" 0 1 1) (ACA.omega 1))
      = -90 ∧
    ACA.phaseDeg (ACA.get_impedance (ACA.Comp.inductor "Z" 0 1 1) (ACA.omega 1))
      = 90 ∧
    ACA.magnitude (ACA.get_impedance (ACA.Comp.capacitor "Z" 0 1 1) (ACA.omega 2))
      < ACA.magnitude (ACA.get_impedance (ACA.Comp.capacitor "Z" 0 1 1) (ACA.omega 1)) := by
  obtain ⟨h1, h2, h3, h4, h5, h6, h7, h8⟩ :=
    claim_C5_ac_impedance_formulas "Z" 0 1 1 2 1 1 1 (by norm_num) (by norm_num)
      (by norm_num) (by norm_num) (by norm_num)
  exact ⟨h1, h4, h7, h5⟩

/-! ## C2 — ground row forcing and the ground voltage -/

/-- Reading index `i` out of the solution array. -/
theorem getD_finRange_map {n : ℕ} (x : Fin n → ℚ) (i : ℕ) (h : i < n) :
    ((List.finRange n).map x).getD i 0 = x ⟨i, h⟩ := by
  rw [List.getD_eq_getElem _ _ (by simpa using h)]
  simp

/-- Row 0 of the `CircuitSolver` system matrix is the identity row `e₀`
(`Y[0,:]=0; Y[0,0]=1`), whatever the circuit. -/
theorem CS.sysMatrix_row_zero (s : CS.State) (h0 : 0 < CS.numNodes s)
    (j : Fin (CS.numNodes s)) :
    CS.sysMatrix s ⟨0, h0⟩ j = if (j : ℕ) = 0 then 1 else 0 := by
  simp [CS.sysMatrix, CS.assembledY]

/-- Entry 0 of the `CircuitSolver` right-hand side is forced to `I[0]=0`. -/
theorem CS.sysVec_zero (s : CS.State) (h0 : 0 < CS.numNodes s) :
    CS.sysVec s ⟨0, h0⟩ = 0 := by
  simp [CS.sysVec, CS.assembledI]

/-- C2: `CircuitSolver.dc_analysis` forces the ground row to an identity
equation before solving, so whenever it returns a success dictionary the
first entry of the reported voltage array — node 0, ground — is exactly 0,
no matter which components touch node 0. -/
theorem claim_C2_ground_row_forced (s : CS.State) (V : List ℚ)
    (names curs : List (String × ℚ))
    (h : CS.dc_analysis s = CS.DCResult.success V names curs) :
    V.getD 0 0 = 0 := by
  unfold CS.dc_analysis at h
  split at h
  · exact absurd h (by simp)
  · rcases hsol : solveLin (CS.sysMatrix s) (CS.sysVec s) with _ | x
    · rw [hsol] at h
      exact absurd h (by simp)
    · rw [hsol] at h
      simp only [CS.DCResult.success.injEq] at h
      obtain ⟨hV, -, -⟩ := h
      have h0 : 0 < CS.numNodes s := Nat.succ_pos _
      have hmul := solveLin_sound hsol
      have hrow : (∑ j, CS.sysMatrix s ⟨0, h0⟩ j * x j) = CS.sysVec s ⟨0, h0⟩ :=
        congrFun hmul ⟨0, h0⟩
      rw [CS.sysVec_zero s h0] at hrow
      have hdot : (∑ j, CS.sysMatrix s ⟨0, h0⟩ j * x j) = x ⟨0, h0⟩ := by
        rw [Finset.sum_eq_single (⟨0, h0⟩ : Fin (CS.numNodes s))]
        · rw [CS.sysMatrix_row_zero]
          simp
        · intro b _ hb
          rw [CS.sysMatrix_row_zero]
          have hbv : (b : ℕ) ≠ 0 := fun hc => hb (Fin.ext hc)
          simp [hbv]
        · intro hc
          exact absurd (Finset.mem_univ _) hc
      rw [hdot] at hrow
      rw [← hV, getD_finRange_map x 0 h0, hrow]

/-- The components and nodes of the `exCur` example, as registered through
the public API (node `a` first, hence index 1 but dict position 0). -/
theorem CS.exCur_state :
    CS.exCur.components = [CS.Comp.resistor "R1" 1 0 1000,
      CS.Comp.current_source "I1" 0 1 (1/1000)] ∧
    CS.exCur.nodes = [("a", 1), ("gnd", 0)] ∧
    CS.numNodes CS.exCur = 2 := by
  refine ⟨rfl, rfl, rfl⟩

/-- The assembled (ground-forced) system of `exCur`, entry by entry. -/
theorem CS.exCur_entries :
    CS.assembledY CS.exCur 0 0 = 1 ∧ CS.assembledY CS.exCur 0 1 = 0 ∧
    CS.assembledY CS.exCur 1 0 = -(1/1000) ∧
    CS.assembledY CS.exCur 1 1 = 1/1000 ∧
    CS.assembledI CS.exCur 0 = 0 ∧ CS.assembledI CS.exCur 1 = 1/1000 := by
  have hc := CS.exCur_state.1
  refine ⟨?_, ?_, ?_, ?_, ?_, ?_⟩ <;>
    simp [CS.assembledY, CS.assembledI, CS.assembleRaw, hc, CS.stampPass1,
      CS.stampVSource, addY, addI, setY, setI]

/-- `exCur`'s system is nonsingular. -/
theorem CS.exCur_det : (CS.sysMatrix CS.exCur).det = 1/1000 := by
  obtain ⟨hY00, hY01, hY10, hY11, -, -⟩ := CS.exCur_entries
  rw [Matrix.det_fin_two]
  show CS.assembledY CS.exCur 0 0 * CS.assembledY CS.exCur 1 1 -
      CS.assembledY CS.exCur 0 1 * CS.assembledY CS.exCur 1 0 = 1/1000
  rw [hY00, hY01, hY10, hY11]
  norm_num

/-- `scipy.linalg.solve` on `exCur` returns the voltage vector `(0, 1)`. -/
theorem CS.exCur_solve :
    solveLin (CS.sysMatrix CS.exCur) (CS.sysVec CS.exCur)
      = some (fun i : Fin (CS.numNodes CS.exCur) =>
          if (i : ℕ) = 0 then (0:ℚ) else 1) := by
  obtain ⟨hY00, hY01, hY10, hY11, hI0, hI1⟩ := CS.exCur_entries
  apply solveLin_eq_some
  · rw [CS.exCur_det]
    norm_num
  · funext i
    rcases i with ⟨iv, hiv⟩
    have h2 : iv < 2 := hiv
    show (∑ j : Fin 2, CS.assembledY CS.exCur iv j.val *
        (if (j : ℕ) = 0 then (0:ℚ) else 1)) = CS.assembledI CS.exCur iv
    rw [Fin.sum_univ_two]
    interval_cases iv <;>
      simp [hY00, hY01, hY10, hY11, hI0, hI1]

/-- Full evaluation of `CircuitSolver.dc_analysis` on `exCur`: node `a`
(index 1) sits at 1 V, ground (index 0) at 0 V, and `R1` carries 1 mA. -/
theorem CS.exCur_dc :
    CS.dc_analysis CS.exCur = CS.DCResult.success [0, 1]
      [("a", 1), ("gnd", 0)] [("R1", 1/1000)] := by
  unfold CS.dc_analysis
  rw [if_neg (by rw [CS.exCur_state.2.1]; simp)]
  rw [CS.exCur_solve]
  have hV : (List.finRange (CS.numNodes CS.exCur)).map
      (fun i : Fin (CS.numNodes CS.exCur) =>
        if (i : ℕ) = 0 then (0:ℚ) else 1) = [0, 1] := by decide
  have hnames : CS.exCur.nodes.map
      (fun p => (p.1, ([0, 1] : List ℚ).getD p.2 0)) = [("a", 1), ("gnd", 0)] := by
    rw [CS.exCur_state.2.1]
    rfl
  have hcur : CS.calculate_currents CS.exCur.components [0, 1]
      = [("R1", 1/1000)] := by
    rw [CS.exCur_state.1]
    simp [CS.calculate_currents]
  simp only [hV, hnames, hcur]

/-- Witness for C2: on `exCur`, `dc_analysis` succeeds and the reported
voltage of node 0 is exactly 0. -/
theorem claim_C2_ground_row_forced_witness :
    CS.dc_analysis CS.exCur = CS.DCResult.success [0, 1]
      [("a", 1), ("gnd", 0)] [("R1", 1/1000)] ∧
    ([0, (1:ℚ)] : List ℚ).getD 0 0 = 0 :=
  ⟨CS.exCur_dc,
    claim_C2_ground_row_forced CS.exCur [0, 1] [("a", 1), ("gnd", 0)]
      [("R1", 1/1000)] CS.exCur_dc⟩

/-- Entries of the MNA system `DCAnalyzer.solve` assembles for the degenerate
one-node circuit `exDegenerate` (voltage source from node 0 to node 0):
the node-0 row is `(0, -1)`, not an identity row. -/
theorem DCA.exDeg_entries :
    (DCA.assemble DCA.exDegenerate 1).1 0 0 = 0 ∧
    (DCA.assemble DCA.exDegenerate 1).1 0 1 = -1 ∧
    (DCA.assemble DCA.exDegenerate 1).1 1 0 = -1 ∧
    (DCA.assemble DCA.exDegenerate 1).1 1 1 = 0 ∧
    (DCA.assemble DCA.exDegenerate 1).2 0 = 0 ∧
    (DCA.assemble DCA.exDegenerate 1).2 1 = 5 := by
  refine ⟨?_, ?_, ?_, ?_, ?_, ?_⟩ <;>
    simp [DCA.assemble, DCA.exDegenerate, DCA.add_voltage_source,
      DCA.initState, DCA.stampVSources, setY, setI]

/-- The degenerate system is nonsingular (`det = -1`). -/
theorem DCA.exDeg_det : (DCA.sysMatrix DCA.exDegenerate 1).det = -1 := by
  obtain ⟨h00, h01, h10, h11, -, -⟩ := DCA.exDeg_entries
  rw [Matrix.det_fin_two]
  show (DCA.assemble DCA.exDegenerate 1).1 0 0 *
      (DCA.assemble DCA.exDegenerate 1).1 1 1 -
      (DCA.assemble DCA.exDegenerate 1).1 0 1 *
      (DCA.assemble DCA.exDegenerate 1).1 1 0 = -1
  rw [h00, h01, h10, h11]
  norm_num

/-- `scipy.linalg.solve` on the degenerate system returns `(-5, 0)`. -/
theorem DCA.exDeg_solve :
    solveLin (DCA.sysMatrix DCA.exDegenerate 1) (DCA.sysVec DCA.exDegenerate 1)
      = some (fun i : Fin (DCA.numVars DCA.exDegenerate 1) =>
          if (i : ℕ) = 0 then (-5 : ℚ) else 0) := by
  obtain ⟨h00, h01, h10, h11, hI0, hI1⟩ := DCA.exDeg_entries
  apply solveLin_eq_some
  · rw [DCA.exDeg_det]
    norm_num
  · funext i
    rcases i with ⟨iv, hiv⟩
    have h2 : iv < 2 := hiv
    show (∑ j : Fin 2, (DCA.assemble DCA.exDegenerate 1).1 iv j.val *
        (if (j : ℕ) = 0 then (-5 : ℚ) else 0))
      = (DCA.assemble DCA.exDegenerate 1).2 iv
    rw [Fin.sum_univ_two]
    interval_cases iv <;> simp [h00, h01, h10, h11, hI0, hI1]

/-- Full evaluation of `DCAnalyzer.solve` on the degenerate circuit: status
`"success"` with node 0 (ground) reported at `-5` volts. -/
theorem DCA.exDeg_solve_eval :
    DCA.solve DCA.exDegenerate (some 1)
      = DCA.Result.ok [(0, -5)] [("V1", 0)] [("V1", 0)] [("V1", 0)] := by
  unfold DCA.solve
  simp only [Option.getD_some]
  rw [DCA.exDeg_solve]
  have hXL : (List.finRange (DCA.numVars DCA.exDegenerate 1)).map
      (fun i : Fin (DCA.numVars DCA.exDegenerate 1) =>
        if (i : ℕ) = 0 then (-5 : ℚ) else 0) = [-5, 0] := by decide
  simp only [hXL]
  show DCA.Result.ok
      ((List.range 1).map fun i => (i, ([-5, 0] : List ℚ).getD i 0))
      ((DCA.exDegenerate.components.map fun c =>
        (c.name, (([-5, 0] : List ℚ).getD c.node1 0 -
          ([-5, 0] : List ℚ).getD c.node2 0) / c.value))
        ++ (DCA.exDegenerate.current_sources.map fun c => (c.name, c.current))
        ++ (DCA.exDegenerate.voltage_sources.enum.map fun p =>
          (p.2.name, ([-5, 0] : List ℚ).getD (1 + p.1) 0)))
      _ _ = _
  norm_num [DCA.exDegenerate, DCA.add_voltage_source, DCA.initState,
    List.enum, DCA.Result.ok.injEq]
  decide

/-- C2 counterexample: the claim's universally-quantified consequence fails
on the cited `DCAnalyzer.solve`: (a) on the degenerate one-node circuit it
returns status `"success"` while reporting node 0 — ground — at `-5 ≠ 0`
volts, and (b) on a plain resistor circuit the node-0 row of its assembled
matrix keeps the stamped conductances (`Y[0,0] = 1/1000 ≠ 1`): no ground-row
forcing is performed in the service. -/
theorem claim_C2_counterexample :
    DCA.solve DCA.exDegenerate (some 1)
      = DCA.Result.ok [(0, -5)] [("V1", 0)] [("V1", 0)] [("V1", 0)] ∧
    (DCA.solve DCA.exDegenerate (some 1)).status = "success" ∧
    ((-5 : ℚ) ≠ 0) ∧
    (DCA.assemble DCA.exR 2).1 0 0 = 1/1000 ∧ ((1/1000 : ℚ) ≠ 1) := by
  refine ⟨DCA.exDeg_solve_eval, ?_, by norm_num, ?_, by norm_num⟩
  · rw [DCA.exDeg_solve_eval]
    rfl
  · have hcomp : DCA.exR.components = [⟨"R1", 0, 1, 1000⟩] := rfl
    have hvs : DCA.exR.voltage_sources = [] := rfl
    simp [DCA.assemble, hcomp, hvs, DCA.stampResistor, DCA.stampVSources,
      addY, setY]

/-! ## C3 — behaviour on a singular DC system -/

/-- On a singular assembled system, `CircuitSolver.dc_analysis` returns the
failure dictionary (status `"failed"`, diagnostic message, no data keys); the
model being a total function reflects that the `except` clauses let no
exception escape. -/
theorem CS.dc_analysis_singular (s : CS.State) (hn : s.nodes ≠ [])
    (hdet : (CS.sysMatrix s).det = 0) :
    CS.dc_analysis s = CS.DCResult.failed
      "Singular matrix - check circuit topology" := by
  unfold CS.dc_analysis
  rw [if_neg hn]
  rw [(solveLin_eq_none_iff (CS.sysMatrix s) (CS.sysVec s)).mpr hdet]

/-- On a singular assembled MNA system, `DCAnalyzer.solve` returns its error
dictionary: status `"error"`, the floating-node diagnostic, empty data
maps. -/
theorem DCA.solve_singular (ds : DCA.State) (nopt : Option ℕ)
    (hdet : (DCA.sysMatrix ds (nopt.getD (DCA.detect_node_count ds))).det = 0) :
    DCA.solve ds nopt = DCA.Result.err
      "Circuit matrix singular - check for floating nodes" := by
  have h := (solveLin_eq_none_iff
    (DCA.sysMatrix ds (nopt.getD (DCA.detect_node_count ds)))
    (DCA.sysVec ds (nopt.getD (DCA.detect_node_count ds)))).mpr hdet
  unfold DCA.solve
  simp only [h]

/-- C3 (amended): a singular DC system makes `CircuitSolver.dc_analysis`
return a failure dictionary with status `"failed"`, a diagnostic message and
no voltage/current data, raising nothing; the `DCAnalyzer` service handles
the same situation identically except that its status string is `"error"`. -/
theorem claim_C3_singular_matrix_failure (s : CS.State) (ds : DCA.State)
    (nopt : Option ℕ) (hn : s.nodes ≠ [])
    (hdet : (CS.sysMatrix s).det = 0)
    (hdet' : (DCA.sysMatrix ds (nopt.getD (DCA.detect_node_count ds))).det = 0) :
    CS.dc_analysis s = CS.DCResult.failed
      "Singular matrix - check circuit topology" ∧
    (CS.dc_analysis s).status = "failed" ∧
    DCA.solve ds nopt = DCA.Result.err
      "Circuit matrix singular - check for floating nodes" ∧
    (DCA.solve ds nopt).status = "error" := by
  have h1 := CS.dc_analysis_singular s hn hdet
  have h2 := DCA.solve_singular ds nopt hdet'
  refine ⟨h1, ?_, h2, ?_⟩
  · rw [h1]; rfl
  · rw [h2]; rfl

/-- The floating-node example `exFloat` assembles to
`[[1,0,0],[0,G,-G],[0,-G,G]]` with `I = 0`. -/
theorem CS.exFloat_entries :
    CS.assembledY CS.exFloat 0 0 = 1 ∧ CS.assembledY CS.exFloat 0 1 = 0 ∧
    CS.assembledY CS.exFloat 0 2 = 0 ∧ CS.assembledY CS.exFloat 1 0 = 0 ∧
    CS.assembledY CS.exFloat 1 1 = 1/1000 ∧
    CS.assembledY CS.exFloat 1 2 = -(1/1000) ∧
    CS.assembledY CS.exFloat 2 0 = 0 ∧
    CS.assembledY CS.exFloat 2 1 = -(1/1000) ∧
    CS.assembledY CS.exFloat 2 2 = 1/1000 := by
  have hc : CS.exFloat.components = [CS.Comp.resistor "R1" 1 2 1000] := rfl
  refine ⟨?_, ?_, ?_, ?_, ?_, ?_, ?_, ?_, ?_⟩ <;>
    simp [CS.assembledY, CS.assembleRaw, hc, CS.stampPass1, CS.stampVSource,
      addY, setY]

/-- The floating-node system is singular. -/
theorem CS.exFloat_det : (CS.sysMatrix CS.exFloat).det = 0 := by
  obtain ⟨h00, h01, h02, h10, h11, h12, h20, h21, h22⟩ := CS.exFloat_entries
  rw [Matrix.det_fin_three]
  show CS.assembledY CS.exFloat 0 0 * CS.assembledY CS.exFloat 1 1 *
        CS.assembledY CS.exFloat 2 2 -
      CS.assembledY CS.exFloat 0 0 * CS.assembledY CS.exFloat 1 2 *
        CS.assembledY CS.exFloat 2 1 -
      CS.assembledY CS.exFloat 0 1 * CS.assembledY CS.exFloat 1 0 *
        CS.assembledY CS.exFloat 2 2 +
      CS.assembledY CS.exFloat 0 1 * CS.assembledY CS.exFloat 1 2 *
        CS.assembledY CS.exFloat 2 0 +
      CS.assembledY CS.exFloat 0 2 * CS.assembledY CS.exFloat 1 0 *
        CS.assembledY CS.exFloat 2 1 -
      CS.assembledY CS.exFloat 0 2 * CS.assembledY CS.exFloat 1 1 *
        CS.assembledY CS.exFloat 2 0 = 0
  rw [h00, h01, h02, h10, h11, h12, h20, h21, h22]
  norm_num

/-- Witness for C3 on the floating-node circuit `exFloat` (and the singular
`DCAnalyzer` resistor circuit `exR`). -/
theorem claim_C3_singular_matrix_failure_witness :
    CS.dc_analysis CS.exFloat = CS.DCResult.failed
      "Singular matrix - check circuit topology" ∧
    DCA.solve DCA.exR none = DCA.Result.err
      "Circuit matrix singular - check for floating nodes" := by
  have hdet' : (DCA.sysMatrix DCA.exR
      ((none : Option ℕ).getD (DCA.detect_node_count DCA.exR))).det = 0 := by
    have hcomp : DCA.exR.components = [⟨"R1", 0, 1, 1000⟩] := rfl
    have hvs : DCA.exR.voltage_sources = [] := rfl
    have hcs : DCA.exR.current_sources = [] := rfl
    have e00 : (DCA.assemble DCA.exR 2).1 0 0 = 1/1000 := by
      simp [DCA.assemble, hcomp, hvs, hcs, DCA.stampResistor,
        DCA.stampVSources, addY, setY]
    have e01 : (DCA.assemble DCA.exR 2).1 0 1 = -(1/1000) := by
      simp [DCA.assemble, hcomp, hvs, hcs, DCA.stampResistor,
        DCA.stampVSources, addY, setY]
    have e10 : (DCA.assemble DCA.exR 2).1 1 0 = -(1/1000) := by
      simp [DCA.assemble, hcomp, hvs, hcs, DCA.stampResistor,
        DCA.stampVSources, addY, setY]
    have e11 : (DCA.assemble DCA.exR 2).1 1 1 = 1/1000 := by
      simp [DCA.assemble, hcomp, hvs, hcs, DCA.stampResistor,
        DCA.stampVSources, addY, setY]
    rw [Matrix.det_fin_two]
    show (DCA.assemble DCA.exR 2).1 0 0 * (DCA.assemble DCA.exR 2).1 1 1 -
      (DCA.assemble DCA.exR 2).1 0 1 * (DCA.assemble DCA.exR 2).1 1 0 = 0
    rw [e00, e01, e10, e11]
    norm_num
  obtain ⟨h1, -, h3, -⟩ := claim_C3_singular_matrix_failure CS.exFloat DCA.exR
    none (by rw [show CS.exFloat.nodes = [("a", 1), ("b", 2)] from rfl]; simp)
    CS.exFloat_det hdet'
  exact ⟨h1, h3⟩

/-- C3 counterexample: the claim as stated requires status `"failed"`; the
cited `DCAnalyzer.solve` reports the singular resistor-only circuit with
status `"error"`. -/
theorem claim_C3_counterexample :
    (DCA.solve DCA.exR none).status = "error" ∧
    (DCA.solve DCA.exR none).status ≠ "failed" := by
  have hdet' : (DCA.sysMatrix DCA.exR
      ((none : Option ℕ).getD (DCA.detect_node_count DCA.exR))).det = 0 := by
    have hcomp : DCA.exR.components = [⟨"R1", 0, 1, 1000⟩] := rfl
    have hvs : DCA.exR.voltage_sources = [] := rfl
    have hcs : DCA.exR.current_sources = [] := rfl
    have e00 : (DCA.assemble DCA.exR 2).1 0 0 = 1/1000 := by
      simp [DCA.assemble, hcomp, hvs, hcs, DCA.stampResistor,
        DCA.stampVSources, addY, setY]
    have e01 : (DCA.assemble DCA.exR 2).1 0 1 = -(1/1000) := by
      simp [DCA.assemble, hcomp, hvs, hcs, DCA.stampResistor,
        DCA.stampVSources, addY, setY]
    have e10 : (DCA.assemble DCA.exR 2).1 1 0 = -(1/1000) := by
      simp [DCA.assemble, hcomp, hvs, hcs, DCA.stampResistor,
        DCA.stampVSources, addY, setY]
    have e11 : (DCA.assemble DCA.exR 2).1 1 1 = 1/1000 := by
      simp [DCA.assemble, hcomp, hvs, hcs, DCA.stampResistor,
        DCA.stampVSources, addY, setY]
    rw [Matrix.det_fin_two]
    show (DCA.assemble DCA.exR 2).1 0 0 * (DCA.assemble DCA.exR 2).1 1 1 -
      (DCA.assemble DCA.exR 2).1 0 1 * (DCA.assemble DCA.exR 2).1 1 0 = 0
    rw [e00, e01, e10, e11]
    norm_num
  have h := DCA.solve_singular DCA.exR none hdet'
  rw [h]
  exact ⟨rfl, by simp [DCA.Result.status]⟩

/-! ## C1 — the MNA voltage-source rows of `DCAnalyzer.solve` -/

/-- The voltage-source pass never touches matrix cells whose row and column
both lie below the first auxiliary index it writes. -/
theorem DCA.stampVSources_preserve_Y (srcs : List DCA.VSource) (nn : ℕ)
    {a b : ℕ} :
    ∀ (YI : (ℕ → ℕ → ℚ) × (ℕ → ℚ)) (i0 : ℕ), a < nn + i0 → b < nn + i0 →
      (DCA.stampVSources nn YI srcs i0).1 a b = YI.1 a b := by
  induction srcs with
  | nil => intro YI i0 _ _; rfl
  | cons src rest ih =>
    intro YI i0 ha hb
    simp only [DCA.stampVSources]
    rw [ih _ (i0 + 1) (by omega) (by omega)]
    have ha' : a ≠ nn + i0 := by omega
    have hb' : b ≠ nn + i0 := by omega
    dsimp only
    simp [setY, ha', hb']

/-- The voltage-source pass never touches vector entries below the first
auxiliary index it writes. -/
theorem DCA.stampVSources_preserve_I (srcs : List DCA.VSource) (nn : ℕ)
    {a : ℕ} :
    ∀ (YI : (ℕ → ℕ → ℚ) × (ℕ → ℚ)) (i0 : ℕ), a < nn + i0 →
      (DCA.stampVSources nn YI srcs i0).2 a = YI.2 a := by
  induction srcs with
  | nil => intro YI i0 _; rfl
  | cons src rest ih =>
    intro YI i0 ha
    simp only [DCA.stampVSources]
    rw [ih _ (i0 + 1) (by omega)]
    have ha' : a ≠ nn + i0 := by omega
    dsimp only
    simp [setI, ha']

/-- The `j`-th voltage source stamped at starting index `i0` contributes
exactly the augmented row `Y[eq,n⁺]=1, Y[eq,n⁻]=-1, I[eq]=V` and transpose
column `Y[n⁺,eq]=1, Y[n⁻,eq]=-1` at `eq = nn + i0 + j`, for well-formed
sources (terminals below `nn` and distinct). -/
theorem DCA.stampVSources_entries (srcs : List DCA.VSource) (nn : ℕ)
    (hwf : ∀ s ∈ srcs, s.node_pos < nn ∧ s.node_neg < nn ∧
      s.node_pos ≠ s.node_neg) :
    ∀ (YI : (ℕ → ℕ → ℚ) × (ℕ → ℚ)) (i0 : ℕ) (j : ℕ) (hj : j < srcs.length),
      (DCA.stampVSources nn YI srcs i0).1 (nn + i0 + j)
          (srcs.get ⟨j, hj⟩).node_pos = 1 ∧
      (DCA.stampVSources nn YI srcs i0).1 (nn + i0 + j)
          (srcs.get ⟨j, hj⟩).node_neg = -1 ∧
      (DCA.stampVSources nn YI srcs i0).2 (nn + i0 + j)
          = (srcs.get ⟨j, hj⟩).voltage ∧
      (DCA.stampVSources nn YI srcs i0).1 (srcs.get ⟨j, hj⟩).node_pos
          (nn + i0 + j) = 1 ∧
      (DCA.stampVSources nn YI srcs i0).1 (srcs.get ⟨j, hj⟩).node_neg
          (nn + i0 + j) = -1 := by
  induction srcs with
  | nil => intro YI i0 j hj; exact absurd hj (by simp)
  | cons src rest ih =>
    intro YI i0 j hj
    obtain ⟨hp, hn, hpn⟩ := hwf src (List.mem_cons_self _ _)
    have hwf' : ∀ s ∈ rest, s.node_pos < nn ∧ s.node_neg < nn ∧
        s.node_pos ≠ s.node_neg := fun s hs => hwf s (List.mem_cons_of_mem _ hs)
    have hep : nn + i0 ≠ src.node_pos := by omega
    have hen : nn + i0 ≠ src.node_neg := by omega
    have hpe : src.node_pos ≠ nn + i0 := by omega
    have hne : src.node_neg ≠ nn + i0 := by omega
    have hnp : src.node_neg ≠ src.node_pos := fun hc => hpn hc.symm
    cases j with
    | zero =>
      simp only [DCA.stampVSources, List.get]
      rw [Nat.add_zero]
      refine ⟨?_, ?_, ?_, ?_, ?_⟩
      · rw [DCA.stampVSources_preserve_Y rest nn _ (i0 + 1) (by omega)
          (by omega)]
        dsimp only
        simp [setY, hep, hpe, hpn, hnp]
      · rw [DCA.stampVSources_preserve_Y rest nn _ (i0 + 1) (by omega)
          (by omega)]
        dsimp only
        simp [setY, hep, hen, hpe, hne, hpn, hnp]
      · rw [DCA.stampVSources_preserve_I rest nn _ (i0 + 1) (by omega)]
        dsimp only
        simp [setI]
      · rw [DCA.stampVSources_preserve_Y rest nn _ (i0 + 1) (by omega)
          (by omega)]
        dsimp only
        simp [setY, hep, hen, hpe, hne, hpn, hnp]
      · rw [DCA.stampVSources_preserve_Y rest nn _ (i0 + 1) (by omega)
          (by omega)]
        dsimp only
        simp [setY, hep, hen, hpe, hne, hpn, hnp]
    | succ k =>
      have hk : k < rest.length := by
        simpa using Nat.lt_of_succ_lt_succ hj
      have harith : nn + i0 + (k + 1) = nn + (i0 + 1) + k := by omega
      simp only [DCA.stampVSources, List.get_cons_succ]
      rw [harith]
      exact ih hwf' _ (i0 + 1) k hk

/-- C1 (amended): the `DCAnalyzer` service assembles the DC system with
dimension `num_nodes + num_voltage_sources`, and every independent voltage
source `i` contributes the exact auxiliary row `Y[eq,n⁺]=1, Y[eq,n⁻]=-1,
I[eq]=V` with transpose entries `Y[n⁺,eq]=1, Y[n⁻,eq]=-1` at
`eq = num_nodes + i` — a true augmented-row constraint.  (The
`CircuitSolver.dc_analysis` path cited alongside instead builds a
`num_nodes`-dimensional system with an approximate `1e6`-conductance
injection; see the counterexample.) -/
theorem claim_C1_mna_voltage_source_rows (ds : DCA.State) (nn : ℕ)
    (hwf : ∀ s ∈ ds.voltage_sources,
      s.node_pos < nn ∧ s.node_neg < nn ∧ s.node_pos ≠ s.node_neg)
    (i : ℕ) (hi : i < ds.voltage_sources.length) :
    DCA.numVars ds nn = nn + ds.voltage_sources.length ∧
    (DCA.assemble ds nn).1 (nn + i)
      (ds.voltage_sources.get ⟨i, hi⟩).node_pos = 1 ∧
    (DCA.assemble ds nn).1 (nn + i)
      (ds.voltage_sources.get ⟨i, hi⟩).node_neg = -1 ∧
    (DCA.assemble ds nn).2 (nn + i)
      = (ds.voltage_sources.get ⟨i, hi⟩).voltage ∧
    (DCA.assemble ds nn).1 (ds.voltage_sources.get ⟨i, hi⟩).node_pos
      (nn + i) = 1 ∧
    (DCA.assemble ds nn).1 (ds.voltage_sources.get ⟨i, hi⟩).node_neg
      (nn + i) = -1 := by
  have h := DCA.stampVSources_entries ds.voltage_sources nn hwf
    (ds.components.foldl DCA.stampResistor fun _ _ => 0,
     ds.current_sources.foldl DCA.stampISource fun _ => 0) 0 i hi
  simp only [Nat.add_zero] at h
  exact ⟨rfl, h.1, h.2.1, h.2.2.1, h.2.2.2.1, h.2.2.2.2⟩

/-- Witness for C1 on the resistor-plus-source service circuit `exRV` with
`num_nodes = 2`: the auxiliary row sits at index 2. -/
theorem claim_C1_mna_voltage_source_rows_witness :
    DCA.numVars DCA.exRV 2 = 3 ∧
    (DCA.assemble DCA.exRV 2).1 2 1 = 1 ∧
    (DCA.assemble DCA.exRV 2).1 2 0 = -1 ∧
    (DCA.assemble DCA.exRV 2).2 2 = 5 ∧
    (DCA.assemble DCA.exRV 2).1 1 2 = 1 ∧
    (DCA.assemble DCA.exRV 2).1 0 2 = -1 := by
  have hwf : ∀ s ∈ DCA.exRV.voltage_sources,
      s.node_pos < 2 ∧ s.node_neg < 2 ∧ s.node_pos ≠ s.node_neg := by
    intro s hs
    have : DCA.exRV.voltage_sources = [⟨"V1", 1, 0, 5⟩] := rfl
    rw [this] at hs
    simp at hs
    subst hs
    exact ⟨by decide, by decide, by decide⟩
  have h := claim_C1_mna_voltage_source_rows DCA.exRV 2 hwf 0 (by
    rw [show DCA.exRV.voltage_sources = [⟨"V1", 1, 0, 5⟩] from rfl]
    simp)
  exact h

/-- C1 counterexample: on a one-source-one-resistor circuit,
`CircuitSolver.dc_analysis` assembles a system of dimension `num_nodes = 2`,
not `num_nodes + num_voltage_sources = 3`, and folds the source in through
the `G_source = 1e6` conductance added on the diagonal
(`Y[1,1] = 1/1000 + 1e6`), i.e. by the approximate large-conductance
injection the claim rules out. -/
theorem claim_C1_counterexample :
    CS.numNodes CS.exVR = 2 ∧
    CS.numNodes CS.exVR + CS.numVSources CS.exVR = 3 ∧
    CS.numNodes CS.exVR ≠ CS.numNodes CS.exVR + CS.numVSources CS.exVR ∧
    CS.assembledY CS.exVR 1 1 = 1/1000 + 1000000 := by
  have hc : CS.exVR.components = [CS.Comp.resistor "R1" 1 0 1000,
      CS.Comp.voltage_source "V1" 1 0 5] := rfl
  refine ⟨rfl, rfl, ?_, ?_⟩
  · rw [show CS.numVSources CS.exVR = 1 from rfl]
    omega
  simp [CS.assembledY, CS.assembleRaw, hc, CS.stampPass1, CS.stampVSource,
    addY, setY]

/-! ## C6 — the node registry -/

/-- Looking a key up past a prefix that does not contain it. -/
theorem lookup_append_of_none {β : Type} {k : String}
    {l₁ l₂ : List (String × β)} (h : l₁.lookup k = none) :
    (l₁ ++ l₂).lookup k = l₂.lookup k := by
  induction l₁ with
  | nil => rfl
  | cons p rest ih =>
    rcases p with ⟨a, b⟩
    rcases hk : (k == a) with _ | _
    · rw [List.cons_append] at *
      simp only [List.lookup, hk] at h ⊢
      exact ih h
    · rw [List.cons_append] at *
      simp only [List.lookup, hk] at h
      exact absurd h (by simp)

/-- `CircuitSolver.add_node` is idempotent: a repeated call with the same
name returns the same index without consuming a new one. -/
theorem CS.add_node_idem_solver (s : CS.State) (n : String) :
    CS.add_node (CS.add_node s n).1 n = CS.add_node s n := by
  rcases hL : s.nodes.lookup n with _ | i
  · by_cases hA : CS.isGroundName n
    · simp [CS.add_node, hL, hA, lookup_append_of_none hL, List.lookup]
    · simp [CS.add_node, hL, hA, lookup_append_of_none hL, List.lookup]
  · simp [CS.add_node, hL]

/-- `CircuitSolverMicroservices.add_node` is idempotent. -/
theorem Micro.add_node_idem_adapter (s : Micro.State) (n : String) :
    Micro.add_node (Micro.add_node s n).1 n = Micro.add_node s n := by
  rcases hL : s.nodes.lookup n with _ | i
  · by_cases hA : Micro.isGroundName n
    · simp [Micro.add_node, hL, hA, lookup_append_of_none hL, List.lookup]
    · simp [Micro.add_node, hL, hA, lookup_append_of_none hL, List.lookup]
  · simp [Micro.add_node, hL]

/-- One `CircuitSolver.add_node` call preserves "the non-ground registered
indices are `1, 2, …, node_counter` in registration order". -/
theorem CS.add_node_inv_solver (s : CS.State) (n : String)
    (h : (s.nodes.filter fun p => !CS.isGroundName p.1).map Prod.snd
      = List.range' 1 s.node_counter) :
    ((CS.add_node s n).1.nodes.filter fun p => !CS.isGroundName p.1).map
      Prod.snd = List.range' 1 (CS.add_node s n).1.node_counter := by
  rcases hL : s.nodes.lookup n with _ | i
  · by_cases hA : CS.isGroundName n
    · simp [CS.add_node, hL, hA, List.filter_append, h]
    · simp [CS.add_node, hL, hA, List.filter_append, h, List.range'_concat,
        Nat.add_comm]
  · simp [CS.add_node, hL, h]

/-- One `CircuitSolverMicroservices.add_node` call preserves the same
registration-order invariant. -/
theorem Micro.add_node_inv_adapter (s : Micro.State) (n : String)
    (h : (s.nodes.filter fun p => !Micro.isGroundName p.1).map Prod.snd
      = List.range' 1 s.node_counter) :
    ((Micro.add_node s n).1.nodes.filter fun p => !Micro.isGroundName p.1).map
      Prod.snd = List.range' 1 (Micro.add_node s n).1.node_counter := by
  rcases hL : s.nodes.lookup n with _ | i
  · by_cases hA : Micro.isGroundName n
    · simp [Micro.add_node, hL, hA, List.filter_append, h]
    · simp [Micro.add_node, hL, hA, List.filter_append, h, List.range'_concat,
        Nat.add_comm]
  · simp [Micro.add_node, hL, h]

/-- After any `add_node` trace on a fresh `CircuitSolver`, the non-ground
names hold indices `1, …, node_counter` in registration order. -/
theorem CS.runAdds_inv_solver (names : List String) :
    ((CS.runAdds names).nodes.filter fun p => !CS.isGroundName p.1).map
      Prod.snd = List.range' 1 (CS.runAdds names).node_counter := by
  have gen : ∀ (l : List String) (s : CS.State),
      (s.nodes.filter fun p => !CS.isGroundName p.1).map Prod.snd
        = List.range' 1 s.node_counter →
      (((l.foldl (fun s n => (CS.add_node s n).1) s).nodes.filter
        fun p => !CS.isGroundName p.1).map Prod.snd
        = List.range' 1 (l.foldl (fun s n =>
            (CS.add_node s n).1) s).node_counter) := by
    intro l
    induction l with
    | nil => intro s h; exact h
    | cons n rest ih =>
      intro s h
      exact ih _ (CS.add_node_inv_solver s n h)
  exact gen names CS.initState rfl

/-- Same invariant for the microservices adapter. -/
theorem Micro.runAdds_inv_adapter (names : List String) :
    ((Micro.runAdds names).nodes.filter fun p => !Micro.isGroundName p.1).map
      Prod.snd = List.range' 1 (Micro.runAdds names).node_counter := by
  have gen : ∀ (l : List String) (s : Micro.State),
      (s.nodes.filter fun p => !Micro.isGroundName p.1).map Prod.snd
        = List.range' 1 s.node_counter →
      (((l.foldl (fun s n => (Micro.add_node s n).1) s).nodes.filter
        fun p => !Micro.isGroundName p.1).map Prod.snd
        = List.range' 1 (l.foldl (fun s n =>
            (Micro.add_node s n).1) s).node_counter) := by
    intro l
    induction l with
    | nil => intro s h; exact h
    | cons n rest ih =>
      intro s h
      exact ih _ (Micro.add_node_inv_adapter s n h)
  exact gen names Micro.initState rfl

/-- C6 (amended): in the microservices adapter the first reference to a name
aliased to `gnd`/`ground`/`0` returns index 0; in `CircuitSolver` the alias
set is only `gnd`/`ground` (a first reference to `"0"` gets a fresh positive
index — see the counterexample).  In both engines every other fresh name
receives `node_counter + 1`, the non-ground names hold `1, 2, …,
node_counter` in registration order, and repeated calls with the same name
are idempotent. -/
theorem claim_C6_node_registry :
    (∀ (s : Micro.State) (n : String), s.nodes.lookup n = none →
      Micro.isGroundName n = true → (Micro.add_node s n).2 = 0) ∧
    (∀ (s : Micro.State) (n : String), s.nodes.lookup n = none →
      Micro.isGroundName n = false →
      (Micro.add_node s n).2 = s.node_counter + 1) ∧
    (∀ (s : Micro.State) (n : String),
      Micro.add_node (Micro.add_node s n).1 n = Micro.add_node s n) ∧
    (∀ names : List String,
      ((Micro.runAdds names).nodes.filter fun p => !Micro.isGroundName p.1).map
        Prod.snd = List.range' 1 (Micro.runAdds names).node_counter) ∧
    (∀ (s : CS.State) (n : String), s.nodes.lookup n = none →
      CS.isGroundName n = true → (CS.add_node s n).2 = 0) ∧
    (∀ (s : CS.State) (n : String), s.nodes.lookup n = none →
      CS.isGroundName n = false →
      (CS.add_node s n).2 = s.node_counter + 1) ∧
    (∀ (s : CS.State) (n : String),
      CS.add_node (CS.add_node s n).1 n = CS.add_node s n) ∧
    (∀ names : List String,
      ((CS.runAdds names).nodes.filter fun p => !CS.isGroundName p.1).map
        Prod.snd = List.range' 1 (CS.runAdds names).node_counter) := by
  refine ⟨?_, ?_, Micro.add_node_idem_adapter, Micro.runAdds_inv_adapter,
    ?_, ?_, CS.add_node_idem_solver, CS.runAdds_inv_solver⟩
  · intro s n hL hA
    simp [Micro.add_node, hL, hA]
  · intro s n hL hA
    simp [Micro.add_node, hL, hA]
  · intro s n hL hA
    simp [CS.add_node, hL, hA]
  · intro s n hL hA
    simp [CS.add_node, hL, hA]

/-- Witness for C6 on concrete names. -/
theorem claim_C6_node_registry_witness :
    (Micro.add_node Micro.initState "0").2 = 0 ∧
    (CS.add_node CS.initState "b").2 = 1 ∧
    CS.add_node (CS.add_node CS.initState "a").1 "a"
      = CS.add_node CS.initState "a" ∧
    ((CS.runAdds ["a", "gnd", "b", "a"]).nodes.filter
      fun p => !CS.isGroundName p.1).map Prod.snd
        = List.range' 1 (CS.runAdds ["a", "gnd", "b", "a"]).node_counter := by
  obtain ⟨m1, m2, m3, m4, c1, c2, c3, c4⟩ := claim_C6_node_registry
  exact ⟨m1 Micro.initState "0" rfl (by decide),
    c2 CS.initState "b" rfl (by decide),
    c3 CS.initState "a", c4 ["a", "gnd", "b", "a"]⟩

/-- C6 counterexample: on a fresh `CircuitSolver`, the very first call
`add_node("0")` returns index 1, not 0 — `"0"` is not a ground alias there,
while the same call on the microservices adapter returns 0. -/
theorem claim_C6_counterexample :
    (CS.add_node CS.initState "0").2 = 1 ∧
    (CS.add_node CS.initState "0").2 ≠ 0 ∧
    (Micro.add_node Micro.initState "0").2 = 0 := by
  refine ⟨by decide, by decide, by decide⟩

/-! ## C8 — transient analysis of purely resistive circuits -/

/-- `max` accumulated over `0, …, l`. -/
theorem foldl_max_range (l : ℕ) :
    List.foldl max 0 (List.range (l + 1)) = l := by
  induction l with
  | zero => rfl
  | succ k ih =>
    rw [List.range_succ, List.foldl_append, ih]
    simp [Nat.max_eq_right (Nat.le_succ k)]

/-- When the registration order matches the index order, `num_nodes` is the
number of registered names. -/
theorem CS.numNodes_of_aligned (s : CS.State) (hne : s.nodes ≠ [])
    (halign : s.nodes.map Prod.snd = List.range s.nodes.length) :
    CS.numNodes s = s.nodes.length := by
  obtain ⟨l, hl⟩ := Nat.exists_eq_succ_of_ne_zero
    (fun hc => hne (List.length_eq_zero.mp hc))
  unfold CS.numNodes
  rw [halign, hl, foldl_max_range]

/-- With aligned registration, zipping the dict keys against the voltage
array reproduces the `node_names` pairing of `dc_analysis`. -/
theorem CS.zip_names_of_aligned (nodes : List (String × ℕ)) (V : List ℚ)
    (halign : nodes.map Prod.snd = List.range nodes.length)
    (hlen : V.length = nodes.length) :
    (nodes.map Prod.fst).zip V = nodes.map fun p => (p.1, V.getD p.2 0) := by
  apply List.ext_getElem
  · simp [hlen]
  · intro i h1 h2
    have hi : i < nodes.length := by
      simpa using h2
    have hsnd : nodes[i].2 = i := by
      have := congrArg (fun l => l[i]?) halign
      simp only [List.getElem?_map] at this
      rw [List.getElem?_eq_getElem hi] at this
      rw [List.getElem?_eq_getElem (by simpa [halign] using hi)] at this
      simp only [List.getElem_range] at this
      simpa using this
    have hiv : i < V.length := by omega
    simp only [List.getElem_zip, List.getElem_map]
    rw [hsnd, List.getD_eq_getElem V 0 hiv]

/-- C8 (amended): for a circuit with no reactive elements whose node
registration order matches its node indices, `transient_analysis` propagates
a failed DC result unchanged, and on DC success returns exactly the DC
node-name voltages and component currents replicated across the time grid. -/
theorem claim_C8_resistive_transient (s : CS.State) (d st : ℚ)
    (hcap : s.components.filter CS.isCapacitor = [])
    (hind : s.components.filter CS.isInductor = [])
    (halign : s.nodes.map Prod.snd = List.range s.nodes.length) :
    (∀ e, CS.dc_analysis s = CS.DCResult.failed e →
      CS.transient_analysis s d st = CS.TResult.failed e) ∧
    (∀ V names curs, CS.dc_analysis s = CS.DCResult.success V names curs →
      CS.transient_analysis s d st = CS.TResult.resistive (CS.timePoints d st)
        (names.map fun p =>
          (p.1, List.replicate (CS.timePoints d st).length p.2))
        (curs.map fun p =>
          (p.1, List.replicate (CS.timePoints d st).length p.2))) := by
  have hta : CS.transient_analysis s d st
      = CS.transient_resistive s (CS.timePoints d st) := by
    unfold CS.transient_analysis
    simp [hcap, hind]
  constructor
  · intro e h
    rw [hta]
    unfold CS.transient_resistive
    rw [h]
  · intro V names curs h
    rw [hta]
    unfold CS.transient_resistive
    rw [h]
    have hne : s.nodes ≠ [] := by
      intro hc
      unfold CS.dc_analysis at h
      rw [if_pos hc] at h
      exact absurd h (by simp)
    have hVlen : V.length = s.nodes.length := by
      unfold CS.dc_analysis at h
      rw [if_neg hne] at h
      rcases hsol : solveLin (CS.sysMatrix s) (CS.sysVec s) with _ | x
      · rw [hsol] at h
        exact absurd h (by simp)
      · rw [hsol] at h
        simp only [CS.DCResult.success.injEq] at h
        rw [← h.1]
        simp [CS.numNodes_of_aligned s hne halign]
    have hnames : names = s.nodes.map fun p => (p.1, V.getD p.2 0) := by
      unfold CS.dc_analysis at h
      rw [if_neg hne] at h
      rcases hsol : solveLin (CS.sysMatrix s) (CS.sysVec s) with _ | x
      · rw [hsol] at h
        exact absurd h (by simp)
      · rw [hsol] at h
        simp only [CS.DCResult.success.injEq] at h
        rw [← h.2.1, ← h.1]
    dsimp only
    rw [CS.zip_names_of_aligned s.nodes V halign hVlen, ← hnames]

/-- The one-resistor aligned circuit assembles to `[[1,0],[-G,G]]` with a
zero right-hand side. -/
theorem CS.exAligned_entries :
    CS.assembledY CS.exAligned 0 0 = 1 ∧ CS.assembledY CS.exAligned 0 1 = 0 ∧
    CS.assembledY CS.exAligned 1 0 = -(1/1000) ∧
    CS.assembledY CS.exAligned 1 1 = 1/1000 ∧
    CS.sysVec CS.exAligned = fun _ => 0 := by
  have hc : CS.exAligned.components = [CS.Comp.resistor "R1" 0 1 1000] := rfl
  refine ⟨?_, ?_, ?_, ?_, funext fun i => ?_⟩ <;>
    simp [CS.assembledY, CS.assembledI, CS.sysVec, CS.assembleRaw, hc,
      CS.stampPass1, CS.stampVSource, addY, addI, setY, setI]

/-- The aligned example is nonsingular and solves to the zero vector. -/
theorem CS.exAligned_solve :
    solveLin (CS.sysMatrix CS.exAligned) (CS.sysVec CS.exAligned)
      = some (fun _ : Fin (CS.numNodes CS.exAligned) => (0:ℚ)) := by
  obtain ⟨h00, h01, h10, h11, hb⟩ := CS.exAligned_entries
  apply solveLin_eq_some
  · rw [Matrix.det_fin_two]
    show CS.assembledY CS.exAligned 0 0 * CS.assembledY CS.exAligned 1 1 -
      CS.assembledY CS.exAligned 0 1 * CS.assembledY CS.exAligned 1 0 ≠ 0
    rw [h00, h01, h10, h11]
    norm_num
  · rw [hb]
    funext i
    show (∑ j : Fin (CS.numNodes CS.exAligned),
      CS.sysMatrix CS.exAligned i j * 0) = 0
    simp

/-- Full DC evaluation of the aligned example: all voltages and the resistor
current are zero. -/
theorem CS.exAligned_dc :
    CS.dc_analysis CS.exAligned = CS.DCResult.success [0, 0]
      [("gnd", 0), ("a", 0)] [("R1", 0)] := by
  unfold CS.dc_analysis
  have hne : CS.exAligned.nodes ≠ [] := by
    rw [show CS.exAligned.nodes = [("gnd", 0), ("a", 1)] from rfl]
    simp
  rw [if_neg hne]
  rw [CS.exAligned_solve]
  have hV : (List.finRange (CS.numNodes CS.exAligned)).map
      (fun _ : Fin (CS.numNodes CS.exAligned) => (0:ℚ)) = [0, 0] := by decide
  have hnames : CS.exAligned.nodes.map
      (fun p => (p.1, ([0, 0] : List ℚ).getD p.2 0))
        = [("gnd", 0), ("a", 0)] := by
    rw [show CS.exAligned.nodes = [("gnd", 0), ("a", 1)] from rfl]
    rfl
  have hcur : CS.calculate_currents CS.exAligned.components [0, 0]
      = [("R1", 0)] := by
    rw [show CS.exAligned.components = [CS.Comp.resistor "R1" 0 1 1000] from rfl]
    simp [CS.calculate_currents]
  simp only [hV, hnames, hcur]

/-- `np.arange(0, 1, 1) = [0]`. -/
theorem CS.timePoints_one : CS.timePoints 1 1 = [0] := by
  rw [CS.timePoints, if_neg (by norm_num)]
  rw [show ⌈(1:ℚ)/1⌉₊ = 1 from by norm_num,
    show List.range 1 = [0] from rfl]
  simp

/-- Witness for C8 on the ground-first resistor circuit: the transient
trajectory is the DC solution repeated over the single time sample. -/
theorem claim_C8_resistive_transient_witness :
    CS.dc_analysis CS.exAligned = CS.DCResult.success [0, 0]
      [("gnd", 0), ("a", 0)] [("R1", 0)] ∧
    CS.transient_analysis CS.exAligned 1 1
      = CS.TResult.resistive [0] [("gnd", [0]), ("a", [0])] [("R1", [0])] := by
  have h := (claim_C8_resistive_transient CS.exAligned 1 1 rfl rfl
    (by decide)).2 [0, 0] [("gnd", 0), ("a", 0)] [("R1", 0)] CS.exAligned_dc
  rw [CS.timePoints_one] at h
  exact ⟨CS.exAligned_dc, by rw [h]; rfl⟩

/-- C8 counterexample: on `exCur` (node `a` registered before ground, so
dict order disagrees with index order) `dc_analysis` reports node `a` at 1 V,
but `transient_analysis` pairs the dict keys with the voltage array
positionally and reports the trajectory of `a` as `[0]` (and of `gnd` as
`[1]`) — not the DC solution repeated across time. -/
theorem claim_C8_counterexample :
    CS.dc_analysis CS.exCur = CS.DCResult.success [0, 1]
      [("a", 1), ("gnd", 0)] [("R1", 1/1000)] ∧
    CS.transient_analysis CS.exCur 1 1 = CS.TResult.resistive [0]
      [("a", [0]), ("gnd", [1])] [("R1", [1/1000])] ∧
    ([0] : List ℚ) ≠ List.replicate 1 (1:ℚ) := by
  refine ⟨CS.exCur_dc, ?_, by decide⟩
  have hta : CS.transient_analysis CS.exCur 1 1
      = CS.transient_resistive CS.exCur (CS.timePoints 1 1) := by
    unfold CS.transient_analysis
    simp [show CS.exCur.components.filter CS.isCapacitor = [] from rfl,
      show CS.exCur.components.filter CS.isInductor = [] from rfl]
  rw [hta, CS.timePoints_one]
  unfold CS.transient_resistive
  rw [CS.exCur_dc]
  rfl
